import Mathlib

/-!
Verification model of the MAGUS-AncientHumanMicrobiome metadata utilities.

The repository consists of six command-line Python scripts that stream
delimited text tables row by row: `ena_merge.py`, `ena_merge_dedup_barebones.py`,
`ena_slim.py`, `sra_slim.py`, `merge_sra_ena.py` and `sra_merge_bioproject.py`.
Each script is a pure record transformation once the rows have been parsed, so
we embed them shallowly: a parsed row is an association list from column name
to string value (the `csv.DictReader` view), and each script body becomes a
fold over its input rows.  File-system concerns (glob expansion, gzip,
delimiter sniffing, byte-level csv quoting) are not modelled; the defined
processing order of input files (lexicographically sorted paths) is represented
by the order of the input list handed to each model.

String values are Lean `String`s, but all operations on them are implemented
here over the underlying character list so that every definition evaluates by
kernel reduction.  Characters compare by code point exactly as in Python;
case conversion is modelled for ASCII letters (all controlled-vocabulary
values in this data set are ASCII).
-/

/-- Python's default `str.strip` whitespace set (space, tab, LF, CR, VT, FF). -/
def isPyWS (c : Char) : Bool :=
  c == ' ' || c == '\t' || c == '\n' || c == '\r' || c == '\x0b' || c == '\x0c'

/-- Model of Python `str.strip()`: drop leading and trailing whitespace. -/
def pyStrip (s : String) : String :=
  String.mk (((s.data.dropWhile isPyWS).reverse.dropWhile isPyWS).reverse)

/-- ASCII lower-casing of one character, as Python `str.lower` acts on ASCII. -/
def asciiLower (c : Char) : Char :=
  if 65 ≤ c.toNat ∧ c.toNat ≤ 90 then Char.ofNat (c.toNat + 32) else c

/-- ASCII upper-casing of one character, as Python `str.upper` acts on ASCII. -/
def asciiUpper (c : Char) : Char :=
  if 97 ≤ c.toNat ∧ c.toNat ≤ 122 then Char.ofNat (c.toNat - 32) else c

/-- Model of Python `str.lower()` (ASCII fragment). -/
def pyLower (s : String) : String :=
  String.mk (s.data.map asciiLower)

/-- Model of Python `str.upper()` (ASCII fragment). -/
def pyUpper (s : String) : String :=
  String.mk (s.data.map asciiUpper)

/-- Containment of one character list in another, model of Python `t in s`. -/
def containsCL (pat : List Char) : List Char → Bool
  | [] => pat.isPrefixOf []
  | c :: cs => pat.isPrefixOf (c :: cs) || containsCL pat cs

/-- Model of the Python substring test `pat in s`. -/
def containsStr (s pat : String) : Bool :=
  containsCL pat.data s.data

/-- Model of Python `s.startswith(p)`. -/
def pyStartsWith (s p : String) : Bool :=
  p.data.isPrefixOf s.data

/-- Lexicographic order on character lists by code point, as Python compares
strings. -/
def lexLe : List Char → List Char → Bool
  | [], _ => true
  | _ :: _, [] => false
  | a :: as, b :: bs =>
    if a.toNat < b.toNat then true
    else if b.toNat < a.toNat then false
    else lexLe as bs

/-- The string order used by Python's `sorted` on `str` values. -/
def strLe (a b : String) : Bool :=
  lexLe a.data b.data

/-- Ordered insertion for insertion sort with respect to `strLe`. -/
def insertStr (x : String) : List String → List String
  | [] => [x]
  | y :: ys => if strLe x y then x :: y :: ys else y :: insertStr x ys

/-- Model of Python `sorted` on a list of strings (the result is the same for
every iteration order of the underlying container, proved below). -/
def sortStrs (l : List String) : List String :=
  l.foldr insertStr []

/-- Model of Python `",".join(parts)`. -/
def joinComma (parts : List String) : String :=
  String.mk (List.intercalate [','] (parts.map String.data))

/-- A parsed data row: the `csv.DictReader` mapping from column name to cell
value, as an association list in header order. -/
abbrev Row := List (String × String)

/-- Model of the idiom `(row.get(col) or "")`: the cell value, or `""` when
the column is absent. -/
def rget (row : Row) (k : String) : String :=
  (List.lookup k row).getD ""

/-- Insert into a list acting as a set, model of Python `set.add`: no
duplicates are created.  The representation order is irrelevant to all
outputs (see the determinism theorem). -/
def insertNew (x : String) (xs : List String) : List String :=
  if x ∈ xs then xs else xs ++ [x]

/-! ## The generic first-seen-wins deduplication engine

All three dedup-by-key merges (`ena_merge.py`, `merge_sra_ena.py`,
`sra_merge_bioproject.py`) share one loop shape: walk the rows in processing
order, skip a row whose key is empty, skip a row whose key was already seen,
otherwise emit the row and record its key.  `dedupKeep` computes the list of
emitted rows and `dupCount` the number of rows dropped as duplicates. -/

/-- Rows kept by first-seen-wins deduplication, given keys already seen. -/
def dedupKeep {α : Type} (key : α → String) : List α → List String → List α
  | [], _ => []
  | x :: xs, seen =>
    if key x = "" then dedupKeep key xs seen
    else if key x ∈ seen then dedupKeep key xs seen
    else x :: dedupKeep key xs (seen ++ [key x])

/-- Number of rows dropped because their (non-empty) key was already seen. -/
def dupCount {α : Type} (key : α → String) : List α → List String → Nat
  | [], _ => 0
  | x :: xs, seen =>
    if key x = "" then dupCount key xs seen
    else if key x ∈ seen then 1 + dupCount key xs seen
    else dupCount key xs (seen ++ [key x])

theorem dedupKeep_key_ne_empty {α : Type} (key : α → String) :
    ∀ (l : List α) (seen : List String) (a : α),
      a ∈ dedupKeep key l seen → key a ≠ "" := by
  intro l
  induction l with
  | nil => intro seen a h; simp [dedupKeep] at h
  | cons x xs ih =>
    intro seen a h
    by_cases h0 : key x = ""
    · rw [dedupKeep, if_pos h0] at h
      exact ih seen a h
    · rw [dedupKeep, if_neg h0] at h
      by_cases h1 : key x ∈ seen
      · rw [if_pos h1] at h
        exact ih seen a h
      · rw [if_neg h1] at h
        rcases List.mem_cons.mp h with h | h
        · exact h ▸ h0
        · exact ih _ a h

theorem dedupKeep_key_not_seen {α : Type} (key : α → String) :
    ∀ (l : List α) (seen : List String) (a : α),
      a ∈ dedupKeep key l seen → key a ∉ seen := by
  intro l
  induction l with
  | nil => intro seen a h; simp [dedupKeep] at h
  | cons x xs ih =>
    intro seen a h
    by_cases h0 : key x = ""
    · rw [dedupKeep, if_pos h0] at h
      exact ih seen a h
    · rw [dedupKeep, if_neg h0] at h
      by_cases h1 : key x ∈ seen
      · rw [if_pos h1] at h
        exact ih seen a h
      · rw [if_neg h1] at h
        rcases List.mem_cons.mp h with h | h
        · exact h ▸ h1
        · intro hmem
          exact ih _ a h (List.mem_append_left _ hmem)

theorem dedupKeep_pairwise {α : Type} (key : α → String) :
    ∀ (l : List α) (seen : List String),
      (dedupKeep key l seen).Pairwise (fun a b => key a ≠ key b) := by
  intro l
  induction l with
  | nil => intro seen; simp [dedupKeep]
  | cons x xs ih =>
    intro seen
    by_cases h0 : key x = ""
    · rw [dedupKeep, if_pos h0]; exact ih seen
    · rw [dedupKeep, if_neg h0]
      by_cases h1 : key x ∈ seen
      · rw [if_pos h1]; exact ih seen
      · rw [if_neg h1]
        refine List.pairwise_cons.mpr ⟨?_, ih _⟩
        intro a ha heq
        exact dedupKeep_key_not_seen key xs _ a ha
          (List.mem_append_right _ (heq ▸ List.mem_singleton_self _))

theorem countP_le_one_of_pairwise {α : Type} (key : α → String) (k : String) :
    ∀ (l : List α), l.Pairwise (fun a b => key a ≠ key b) →
      l.countP (fun a => key a == k) ≤ 1 := by
  intro l
  induction l with
  | nil => intro _; simp
  | cons x xs ih =>
    intro hp
    rcases List.pairwise_cons.mp hp with ⟨hx, hxs⟩
    rw [List.countP_cons]
    by_cases hk : key x == k
    · have : xs.countP (fun a => key a == k) = 0 := by
        apply List.countP_eq_zero.mpr
        intro a ha hak
        exact hx a ha ((eq_of_beq hk).trans (eq_of_beq hak).symm)
      simp [this, hk]
    · have := ih hxs
      rw [if_neg hk]
      omega

theorem dedupKeep_countP_le_one {α : Type} (key : α → String)
    (l : List α) (seen : List String) (k : String) :
    (dedupKeep key l seen).countP (fun a => key a == k) ≤ 1 :=
  countP_le_one_of_pairwise key k _ (dedupKeep_pairwise key l seen)

theorem dedupKeep_first {α : Type} (key : α → String) :
    ∀ (l : List α) (seen : List String) (a : α),
      a ∈ dedupKeep key l seen →
      l.find? (fun x => key x == key a) = some a := by
  intro l
  induction l with
  | nil => intro seen a h; simp [dedupKeep] at h
  | cons x xs ih =>
    intro seen a h
    by_cases h0 : key x = ""
    · rw [dedupKeep, if_pos h0] at h
      have hne := dedupKeep_key_ne_empty key xs seen a h
      have : (key x == key a) = false := by
        simp [h0]; exact fun e => hne e.symm
      rw [List.find?_cons, this]
      exact ih seen a h
    · rw [dedupKeep, if_neg h0] at h
      by_cases h1 : key x ∈ seen
      · rw [if_pos h1] at h
        have hns := dedupKeep_key_not_seen key xs seen a h
        have : (key x == key a) = false := by
          apply beq_eq_false_iff_ne.mpr
          intro e
          exact hns (e ▸ h1)
        rw [List.find?_cons, this]
        exact ih seen a h
      · rw [if_neg h1] at h
        rcases List.mem_cons.mp h with h | h
        · subst h
          rw [List.find?_cons]
          simp
        · have hns := dedupKeep_key_not_seen key xs _ a h
          have : (key x == key a) = false := by
            apply beq_eq_false_iff_ne.mpr
            intro e
            exact hns (List.mem_append_right _ (e ▸ List.mem_singleton_self _))
          rw [List.find?_cons, this]
          exact ih _ a h

theorem dedupKeep_append {α : Type} (key : α → String) :
    ∀ (l₁ l₂ : List α) (seen : List String),
      dedupKeep key (l₁ ++ l₂) seen =
        dedupKeep key l₁ seen ++
          dedupKeep key l₂ (seen ++ (dedupKeep key l₁ seen).map key) := by
  intro l₁
  induction l₁ with
  | nil => intro l₂ seen; simp [dedupKeep]
  | cons x xs ih =>
    intro l₂ seen
    by_cases h0 : key x = ""
    · simp only [List.cons_append, dedupKeep, if_pos h0]
      exact ih l₂ seen
    · simp only [List.cons_append, dedupKeep, if_neg h0]
      by_cases h1 : key x ∈ seen
      · rw [if_pos h1, if_pos h1]
        exact ih l₂ seen
      · rw [if_neg h1, if_neg h1]
        have h2 := ih l₂ (seen ++ [key x])
        rw [show xs.append l₂ = xs ++ l₂ from rfl, h2]
        simp [List.append_assoc]

/-! ## Order lemmas for the string sort -/

theorem char_toNat_inj {a b : Char} (h : a.toNat = b.toNat) : a = b :=
  Char.ext (UInt32.toNat.inj h)

theorem lexLe_total : ∀ (as bs : List Char),
    lexLe as bs = true ∨ lexLe bs as = true := by
  intro as
  induction as with
  | nil => intro bs; left; rfl
  | cons a as ih =>
    intro bs
    cases bs with
    | nil => right; rfl
    | cons b bs =>
      rcases Nat.lt_trichotomy a.toNat b.toNat with h | h | h
      · left; simp [lexLe, h]
      · have hne : ¬ a.toNat < b.toNat := by omega
        have hne' : ¬ b.toNat < a.toNat := by omega
        rcases ih bs with h2 | h2
        · left; simp [lexLe, hne, hne', h2]
        · right; simp [lexLe, hne, hne', h2]
      · right; simp [lexLe, h]

theorem lexLe_trans : ∀ (as bs cs : List Char),
    lexLe as bs = true → lexLe bs cs = true → lexLe as cs = true := by
  intro as
  induction as with
  | nil => intro bs cs _ _; rfl
  | cons a as ih =>
    intro bs cs h1 h2
    cases bs with
    | nil => simp [lexLe] at h1
    | cons b bs =>
      cases cs with
      | nil => simp [lexLe] at h2
      | cons c cs =>
        by_cases hab : a.toNat < b.toNat
        · by_cases hbc : b.toNat < c.toNat
          · simp [lexLe, show a.toNat < c.toNat by omega]
          · by_cases hcb : c.toNat < b.toNat
            · simp [lexLe, hbc, hcb] at h2
            · have : b.toNat = c.toNat := by omega
              simp [lexLe, show a.toNat < c.toNat by omega]
        · by_cases hba : b.toNat < a.toNat
          · simp [lexLe, hab, hba] at h1
          · have hab' : a.toNat = b.toNat := by omega
            by_cases hbc : b.toNat < c.toNat
            · simp [lexLe, show a.toNat < c.toNat by omega]
            · by_cases hcb : c.toNat < b.toNat
              · simp [lexLe, hbc, hcb] at h2
              · have hbc' : b.toNat = c.toNat := by omega
                simp [lexLe, hab, hba] at h1
                simp [lexLe, hbc, hcb] at h2
                simp [lexLe, show ¬ a.toNat < c.toNat by omega,
                      show ¬ c.toNat < a.toNat by omega]
                exact ih bs cs h1 h2

theorem lexLe_antisymm : ∀ (as bs : List Char),
    lexLe as bs = true → lexLe bs as = true → as = bs := by
  intro as
  induction as with
  | nil =>
    intro bs _ h2
    cases bs with
    | nil => rfl
    | cons b bs => simp [lexLe] at h2
  | cons a as ih =>
    intro bs h1 h2
    cases bs with
    | nil => simp [lexLe] at h1
    | cons b bs =>
      by_cases hab : a.toNat < b.toNat
      · simp [lexLe, show ¬ b.toNat < a.toNat by omega, hab] at h2
      · by_cases hba : b.toNat < a.toNat
        · simp [lexLe, hab, hba] at h1
        · have : a = b := char_toNat_inj (by omega)
          subst this
          simp [lexLe, hab, hba] at h1 h2
          rw [ih bs h1 h2]

theorem string_data_inj {a b : String} (h : a.data = b.data) : a = b := by
  cases a; cases b; exact congrArg String.mk (by simpa using h)

theorem strLe_total (a b : String) : strLe a b = true ∨ strLe b a = true :=
  lexLe_total a.data b.data

theorem strLe_trans {a b c : String} (h1 : strLe a b = true)
    (h2 : strLe b c = true) : strLe a c = true :=
  lexLe_trans a.data b.data c.data h1 h2

theorem strLe_antisymm {a b : String} (h1 : strLe a b = true)
    (h2 : strLe b a = true) : a = b :=
  string_data_inj (lexLe_antisymm a.data b.data h1 h2)

theorem perm_insertStr (x : String) : ∀ (l : List String),
    (insertStr x l).Perm (x :: l) := by
  intro l
  induction l with
  | nil => simp [insertStr]
  | cons y ys ih =>
    rw [insertStr]
    by_cases h : strLe x y = true
    · rw [if_pos h]
    · rw [if_neg h]
      exact (List.Perm.cons y ih).trans (List.Perm.swap x y ys)

theorem sortStrs_perm (l : List String) : (sortStrs l).Perm l := by
  induction l with
  | nil => simp [sortStrs]
  | cons x xs ih =>
    have : sortStrs (x :: xs) = insertStr x (sortStrs xs) := rfl
    rw [this]
    exact (perm_insertStr x (sortStrs xs)).trans (ih.cons x)

theorem sorted_insertStr (x : String) : ∀ (l : List String),
    l.Pairwise (fun a b => strLe a b = true) →
    (insertStr x l).Pairwise (fun a b => strLe a b = true) := by
  intro l
  induction l with
  | nil => intro _; simp [insertStr]
  | cons y ys ih =>
    intro hp
    rcases List.pairwise_cons.mp hp with ⟨hy, hys⟩
    rw [insertStr]
    by_cases h : strLe x y = true
    · rw [if_pos h]
      refine List.pairwise_cons.mpr ⟨?_, hp⟩
      intro b hb
      rcases List.mem_cons.mp hb with hb | hb
      · exact hb ▸ h
      · exact strLe_trans h (hy b hb)
    · rw [if_neg h]
      refine List.pairwise_cons.mpr ⟨?_, ih hys⟩
      intro b hb
      have := (perm_insertStr x ys).mem_iff.mp hb
      rcases List.mem_cons.mp this with hb' | hb'
      · rw [hb']
        rcases strLe_total x y with h' | h'
        · exact absurd h' h
        · exact h'
      · exact hy b hb'

theorem sortStrs_sorted (l : List String) :
    (sortStrs l).Pairwise (fun a b => strLe a b = true) := by
  induction l with
  | nil => simp [sortStrs]
  | cons x xs ih => exact sorted_insertStr x (sortStrs xs) ih

theorem sortStrs_congr {l l' : List String} (h : l.Perm l') :
    sortStrs l = sortStrs l' := by
  have hp : (sortStrs l).Perm (sortStrs l') :=
    ((sortStrs_perm l).trans h).trans (sortStrs_perm l').symm
  exact @List.eq_of_perm_of_sorted _ (fun a b => strLe a b = true)
    ⟨fun a b h1 h2 => strLe_antisymm h1 h2⟩ _ _ hp
    (sortStrs_sorted l) (sortStrs_sorted l')

theorem mem_sortStrs {x : String} {l : List String} :
    x ∈ sortStrs l ↔ x ∈ l :=
  (sortStrs_perm l).mem_iff

theorem nodup_sortStrs {l : List String} (h : l.Nodup) :
    (sortStrs l).Nodup :=
  (sortStrs_perm l).nodup_iff.mpr h

/-! ## The key-to-queries index

`ena_merge.py` and its barebones variant both maintain
`key_to_queries = defaultdict(set)`.  We model the dictionary as an
association list in key-insertion order and each value set as a
duplicate-free list in element-insertion order; the representation order is
irrelevant to all outputs, which sort before writing. -/

theorem mem_insertNew {x y : String} {xs : List String} :
    x ∈ insertNew y xs ↔ x = y ∨ x ∈ xs := by
  unfold insertNew
  by_cases h : y ∈ xs
  · rw [if_pos h]
    constructor
    · exact fun hx => Or.inr hx
    · rintro (rfl | hx)
      · exact h
      · exact hx
  · rw [if_neg h]
    simp [List.mem_append, or_comm]

theorem nodup_insertNew {y : String} {xs : List String} (h : xs.Nodup) :
    (insertNew y xs).Nodup := by
  unfold insertNew
  by_cases hy : y ∈ xs
  · rwa [if_pos hy]
  · rw [if_neg hy]
    exact List.Nodup.append h (List.nodup_singleton y)
      (fun a ha hb => by rw [List.mem_singleton.mp hb] at ha; exact hy ha)

/-- Model of `key_to_queries[key_val].add(query_id)` on the association-list
representation of the `defaultdict(set)`. -/
def kqAdd : List (String × List String) → String → String → List (String × List String)
  | [], k, q => [(k, [q])]
  | (k0, qs) :: rest, k, q =>
    if k0 = k then (k0, insertNew q qs) :: rest
    else (k0, qs) :: kqAdd rest k q

/-- The value set stored for a key (empty when the key is absent). -/
def valueAt (kq : List (String × List String)) (k : String) : List String :=
  (List.lookup k kq).getD []

theorem keys_kqAdd (kq : List (String × List String)) (k q : String) :
    (kqAdd kq k q).map Prod.fst =
      if k ∈ kq.map Prod.fst then kq.map Prod.fst
      else kq.map Prod.fst ++ [k] := by
  induction kq with
  | nil => simp [kqAdd]
  | cons p rest ih =>
    obtain ⟨k0, qs⟩ := p
    rw [kqAdd]
    by_cases h : k0 = k
    · subst h
      simp
    · rw [if_neg h]
      by_cases hmem : k ∈ rest.map Prod.fst
      · simp only [List.map_cons, ih, if_pos hmem]
        rw [if_pos (by simp [hmem])]
      · simp only [List.map_cons, ih, if_neg hmem]
        rw [if_neg (by simp [hmem, Ne.symm h])]
        simp

theorem mem_keys_kqAdd {kq : List (String × List String)} {k q k' : String} :
    k' ∈ (kqAdd kq k q).map Prod.fst ↔ k' ∈ kq.map Prod.fst ∨ k' = k := by
  rw [keys_kqAdd]
  by_cases h : k ∈ kq.map Prod.fst
  · rw [if_pos h]
    constructor
    · exact Or.inl
    · rintro (hk | rfl)
      · exact hk
      · exact h
  · rw [if_neg h]
    simp [List.mem_append]

theorem nodup_keys_kqAdd {kq : List (String × List String)} {k q : String}
    (h : (kq.map Prod.fst).Nodup) : ((kqAdd kq k q).map Prod.fst).Nodup := by
  rw [keys_kqAdd]
  by_cases hk : k ∈ kq.map Prod.fst
  · rwa [if_pos hk]
  · rw [if_neg hk]
    exact List.Nodup.append h (List.nodup_singleton k)
      (fun a ha hb => by rw [List.mem_singleton.mp hb] at ha; exact hk ha)

theorem valueAt_cons (k0 : String) (qs : List String)
    (rest : List (String × List String)) (k' : String) :
    valueAt ((k0, qs) :: rest) k' = if k' = k0 then qs else valueAt rest k' := by
  by_cases h : k' = k0
  · have hb : (k' == k0) = true := beq_iff_eq.mpr h
    simp [valueAt, List.lookup, hb, h]
  · have hb : (k' == k0) = false := beq_eq_false_iff_ne.mpr h
    simp [valueAt, List.lookup, hb, h]

theorem valueAt_kqAdd (kq : List (String × List String)) (k q k' : String) :
    valueAt (kqAdd kq k q) k' =
      if k' = k then insertNew q (valueAt kq k) else valueAt kq k' := by
  induction kq with
  | nil =>
    by_cases h : k' = k
    · have hb : (k' == k) = true := beq_iff_eq.mpr h
      simp [kqAdd, valueAt, List.lookup, hb, h, insertNew]
    · have hb : (k' == k) = false := beq_eq_false_iff_ne.mpr h
      simp [kqAdd, valueAt, List.lookup, hb, h]
  | cons p rest ih =>
    obtain ⟨k0, qs⟩ := p
    rw [kqAdd]
    by_cases h0 : k0 = k
    · rw [if_pos h0]
      by_cases h : k' = k0
      · rw [valueAt_cons, if_pos h, if_pos (h.trans h0), valueAt_cons,
            if_pos h0.symm]
      · have h' : ¬ k' = k := fun e => h (e.trans h0.symm)
        rw [valueAt_cons, if_neg h, if_neg h', valueAt_cons, if_neg h]
    · rw [if_neg h0]
      by_cases h : k' = k0
      · have h' : ¬ k' = k := fun e => h0 ((h.symm.trans e) ▸ rfl)
        rw [valueAt_cons, if_pos h, if_neg h', valueAt_cons, if_pos h]
      · rw [valueAt_cons, if_neg h, ih]
        by_cases hk : k' = k
        · rw [if_pos hk, if_pos hk, valueAt_cons,
              if_neg (fun e => h0 e.symm : ¬ k = k0)]
        · rw [if_neg hk, if_neg hk, valueAt_cons, if_neg h]

/-- One fold step of index maintenance over the stream of
(key, query) observations. -/
def kqFold (kq : List (String × List String)) (obs : List (String × String)) :
    List (String × List String) :=
  obs.foldl (fun m p => kqAdd m p.1 p.2) kq

theorem mem_keys_kqFold {k : String} :
    ∀ (obs : List (String × String)) (kq : List (String × List String)),
      k ∈ (kqFold kq obs).map Prod.fst ↔
        k ∈ kq.map Prod.fst ∨ k ∈ obs.map Prod.fst := by
  intro obs
  induction obs with
  | nil => intro kq; simp [kqFold]
  | cons p ps ih =>
    intro kq
    have : kqFold kq (p :: ps) = kqFold (kqAdd kq p.1 p.2) ps := rfl
    rw [this, ih, mem_keys_kqAdd]
    simp [or_assoc, or_comm, or_left_comm]

theorem mem_valueAt_kqFold {k q : String} :
    ∀ (obs : List (String × String)) (kq : List (String × List String)),
      q ∈ valueAt (kqFold kq obs) k ↔
        q ∈ valueAt kq k ∨ (k, q) ∈ obs := by
  intro obs
  induction obs with
  | nil => intro kq; simp [kqFold]
  | cons p ps ih =>
    intro kq
    obtain ⟨k0, q0⟩ := p
    have : kqFold kq ((k0, q0) :: ps) = kqFold (kqAdd kq k0 q0) ps := rfl
    rw [this, ih, valueAt_kqAdd]
    by_cases hk : k = k0
    · subst hk
      rw [if_pos rfl, mem_insertNew]
      constructor
      · rintro ((rfl | h) | h)
        · exact Or.inr (List.mem_cons_self _ _)
        · exact Or.inl h
        · exact Or.inr (List.mem_cons_of_mem _ h)
      · rintro (h | h)
        · exact Or.inl (Or.inr h)
        · rcases List.mem_cons.mp h with h | h
          · rcases Prod.mk.injEq .. ▸ h with ⟨h1, h2⟩
            exact Or.inl (Or.inl h2)
          · exact Or.inr h
    · rw [if_neg hk]
      constructor
      · rintro (h | h)
        · exact Or.inl h
        · exact Or.inr (List.mem_cons_of_mem _ h)
      · rintro (h | h)
        · exact Or.inl h
        · rcases List.mem_cons.mp h with h | h
          · rcases Prod.mk.injEq .. ▸ h with ⟨h1, h2⟩
            exact absurd h1 hk
          · exact Or.inr h

theorem nodup_valueAt_kqFold {k : String} :
    ∀ (obs : List (String × String)) (kq : List (String × List String)),
      (∀ k', (valueAt kq k').Nodup) → (valueAt (kqFold kq obs) k).Nodup := by
  intro obs
  induction obs with
  | nil => intro kq h; exact h k
  | cons p ps ih =>
    intro kq h
    have : kqFold kq (p :: ps) = kqFold (kqAdd kq p.1 p.2) ps := rfl
    rw [this]
    apply ih
    intro k'
    rw [valueAt_kqAdd]
    by_cases hk : k' = p.1
    · rw [if_pos hk]; exact nodup_insertNew (h p.1)
    · rw [if_neg hk]; exact h k'

theorem nodup_keys_kqFold :
    ∀ (obs : List (String × String)) (kq : List (String × List String)),
      (kq.map Prod.fst).Nodup → ((kqFold kq obs).map Prod.fst).Nodup := by
  intro obs
  induction obs with
  | nil => intro kq h; exact h
  | cons p ps ih =>
    intro kq h
    exact ih (kqAdd kq p.1 p.2) (nodup_keys_kqAdd h)

/-- Extraction of the dedup key of a row:
`key_val = (row.get(args.dedup_key) or "").strip()`. -/
def rkey (dk : String) (r : Row) : String :=
  pyStrip (rget r dk)

/-- The dedup-key listing (`dedup_runs.tsv` / `dedup_studies.tsv`): one line
per dictionary key in sorted order, each carrying the comma-joined sorted
value set.  This models lines 108-112 of `ena_merge.py` and lines 91-95 of
`ena_merge_dedup_barebones.py`. -/
def dedupRunsRows (kq : List (String × List String)) : List (String × String) :=
  (sortStrs (kq.map Prod.fst)).map (fun k => (k, joinComma (sortStrs (valueAt kq k))))

theorem dedupKeep_map {α β : Type} (key : β → String) (g : α → β) :
    ∀ (l : List α) (seen : List String),
      dedupKeep key (l.map g) seen = (dedupKeep (fun a => key (g a)) l seen).map g := by
  intro l
  induction l with
  | nil => intro seen; simp [dedupKeep]
  | cons x xs ih =>
    intro seen
    simp only [List.map_cons, dedupKeep]
    by_cases h0 : key (g x) = ""
    · simp [h0, ih]
    · rw [if_neg h0, if_neg h0]
      by_cases h1 : key (g x) ∈ seen
      · rw [if_pos h1, if_pos h1]
        exact ih seen
      · rw [if_neg h1, if_neg h1, List.map_cons, ih]

namespace EnaMerge

/-- One parsed per-query input file of `ena_merge.py`: the query identifier
derived from the file name, the header (`reader.fieldnames`, empty when the
file has none) and the parsed data rows. -/
structure EnaFile where
  query_id : String
  header : List String
  rows : List Row
deriving DecidableEq

/-- The cross-file mutable state of `main`: the `seen` set, the
`key_to_queries` index and the rows written to `merged_runs.tsv`
(each tagged with its originating `query_id`). -/
structure MState where
  seen : List String
  kq : List (String × List String)
  merged : List (String × Row)
deriving DecidableEq

/-- The per-file counters: `raw_rows`, `written_rows`,
`unique_keys_in_file`. -/
structure FileCtr where
  raw : Nat
  written : Nat
  uniq : List String
deriving DecidableEq

/-- One line of `summary.tsv`. -/
structure QueryStats where
  query_id : String
  input_rows : Nat
  written_rows : Nat
  unique_keys : Nat
deriving DecidableEq

/-- The body of the `for row in reader` loop of `ena_merge.py`
(lines 81-98). -/
def fileRowStep (dk q : String) (a : MState × FileCtr) (row : Row) :
    MState × FileCtr :=
  let kv := rkey dk row
  let st := a.1
  let c : FileCtr := { a.2 with raw := a.2.raw + 1 }
  if kv = "" then (st, c)
  else
    let st : MState := { st with kq := kqAdd st.kq kv q }
    let c : FileCtr := { c with uniq := insertNew kv c.uniq }
    if kv ∈ st.seen then (st, c)
    else
      ({ st with seen := st.seen ++ [kv], merged := st.merged ++ [(q, row)] },
       { c with written := c.written + 1 })

/-- Processing of one input file (loop body of `for p in paths`), returning
the updated state and the file's `summary.tsv` line. -/
def processFile (dk : String) (st : MState) (f : EnaFile) :
    MState × QueryStats :=
  let r := f.rows.foldl (fileRowStep dk f.query_id) (st, ⟨0, 0, []⟩)
  (r.1, ⟨f.query_id, r.2.raw, r.2.written, r.2.uniq.length⟩)

/-- The remaining files once `header_ref` has been fixed: a file without a
header is skipped, a file whose header differs from the reference aborts the
run (`SystemExit`). -/
def mergeGo (dk : String) (href : List String) :
    List EnaFile → MState → List QueryStats →
      Except String (MState × List QueryStats)
  | [], st, stats => .ok (st, stats)
  | f :: fs, st, stats =>
    if f.header = [] then mergeGo dk href fs st stats
    else if f.header ≠ href then .error "Header mismatch"
    else mergeGo dk href fs (processFile dk st f).1
      (stats ++ [(processFile dk st f).2])

/-- The leading phase of the file loop, before any file has provided
`header_ref`. -/
def mergeStart (dk : String) : List EnaFile →
    Except String (MState × List QueryStats)
  | [] => .ok (⟨[], [], []⟩, [])
  | f :: fs =>
    if f.header = [] then mergeStart dk fs
    else mergeGo dk f.header fs (processFile dk ⟨[], [], []⟩ f).1
      [(processFile dk ⟨[], [], []⟩ f).2]

/-- Model of `ena_merge.py main()` on parsed input files, which are given in
lexicographically sorted path order (`sorted(glob.glob(...))`). -/
def main (dk : String) (files : List EnaFile) :
    Except String (MState × List QueryStats) :=
  if files = [] then .error "No files matched --per_query_glob"
  else mergeStart dk files

/-- The dedup key of a query-tagged row. -/
def tkey (dk : String) (qr : String × Row) : String :=
  rkey dk qr.2

/-- The rows of one file, tagged with its query identifier. -/
def tagRows (f : EnaFile) : List (String × Row) :=
  f.rows.map (fun r => (f.query_id, r))

/-- All rows of the processed files (those with a header), tagged, in
processing order. -/
def taggedRows (files : List EnaFile) : List (String × Row) :=
  (files.filter (fun f => f.header != [])).flatMap tagRows

/-- The stream of (dedup key, query id) observations a row list generates. -/
def rowObs (dk q : String) (rows : List Row) : List (String × String) :=
  rows.filterMap (fun r => if rkey dk r = "" then none else some (rkey dk r, q))

/-- The observation stream of all processed files. -/
def obsAll (dk : String) (files : List EnaFile) : List (String × String) :=
  (files.filter (fun f => f.header != [])).flatMap
    (fun f => rowObs dk f.query_id f.rows)

theorem fileFold_spec (dk q : String) :
    ∀ (rows : List Row) (st : MState) (c : FileCtr),
      (rows.foldl (fileRowStep dk q) (st, c)).1.seen
          = st.seen ++ (dedupKeep (rkey dk) rows st.seen).map (rkey dk)
      ∧ (rows.foldl (fileRowStep dk q) (st, c)).1.merged
          = st.merged ++ (dedupKeep (rkey dk) rows st.seen).map (fun r => (q, r))
      ∧ (rows.foldl (fileRowStep dk q) (st, c)).1.kq
          = kqFold st.kq (rowObs dk q rows)
      ∧ (rows.foldl (fileRowStep dk q) (st, c)).2.raw = c.raw + rows.length
      ∧ (rows.foldl (fileRowStep dk q) (st, c)).2.written
          = c.written + (dedupKeep (rkey dk) rows st.seen).length := by
  intro rows
  induction rows with
  | nil => intro st c; simp [dedupKeep, rowObs, kqFold]
  | cons r rs ih =>
    intro st c
    rw [List.foldl_cons]
    by_cases h0 : rkey dk r = ""
    · have hstep : fileRowStep dk q (st, c) r = (st, { c with raw := c.raw + 1 }) := by
        simp [fileRowStep, h0]
      rw [hstep]
      have := ih st { c with raw := c.raw + 1 }
      rw [dedupKeep, if_pos h0]
      have hobs : rowObs dk q (r :: rs) = rowObs dk q rs := by
        simp [rowObs, h0]
      rw [hobs]
      refine ⟨this.1, this.2.1, this.2.2.1, ?_, this.2.2.2.2⟩
      rw [this.2.2.2.1]
      simp
      omega
    · by_cases h1 : rkey dk r ∈ st.seen
      · have hstep : fileRowStep dk q (st, c) r =
            ({ st with kq := kqAdd st.kq (rkey dk r) q },
             { c with raw := c.raw + 1, uniq := insertNew (rkey dk r) c.uniq }) := by
          simp [fileRowStep, h0, h1]
        rw [hstep]
        have := ih { st with kq := kqAdd st.kq (rkey dk r) q }
          { c with raw := c.raw + 1, uniq := insertNew (rkey dk r) c.uniq }
        rw [dedupKeep, if_neg h0, if_pos h1]
        have hobs : rowObs dk q (r :: rs)
            = (rkey dk r, q) :: rowObs dk q rs := by
          simp [rowObs, h0]
        rw [hobs]
        have hkq : kqFold st.kq ((rkey dk r, q) :: rowObs dk q rs)
            = kqFold (kqAdd st.kq (rkey dk r) q) (rowObs dk q rs) := rfl
        rw [hkq]
        refine ⟨this.1, this.2.1, this.2.2.1, ?_, this.2.2.2.2⟩
        rw [this.2.2.2.1]
        simp
        omega
      · have hstep : fileRowStep dk q (st, c) r =
            ({ st with seen := st.seen ++ [rkey dk r],
                       kq := kqAdd st.kq (rkey dk r) q,
                       merged := st.merged ++ [(q, r)] },
             { c with raw := c.raw + 1, written := c.written + 1,
                      uniq := insertNew (rkey dk r) c.uniq }) := by
          simp [fileRowStep, h0, h1]
        rw [hstep]
        have := ih { st with seen := st.seen ++ [rkey dk r],
                             kq := kqAdd st.kq (rkey dk r) q,
                             merged := st.merged ++ [(q, r)] }
          { c with raw := c.raw + 1, written := c.written + 1,
                   uniq := insertNew (rkey dk r) c.uniq }
        rw [dedupKeep, if_neg h0, if_neg h1]
        have hobs : rowObs dk q (r :: rs)
            = (rkey dk r, q) :: rowObs dk q rs := by
          simp [rowObs, h0]
        rw [hobs]
        have hkq : kqFold st.kq ((rkey dk r, q) :: rowObs dk q rs)
            = kqFold (kqAdd st.kq (rkey dk r) q) (rowObs dk q rs) := rfl
        rw [hkq]
        constructor
        · rw [this.1]; simp [List.append_assoc]
        constructor
        · rw [this.2.1]; simp [List.append_assoc]
        constructor
        · exact this.2.2.1
        constructor
        · rw [this.2.2.2.1]; simp; omega
        · rw [this.2.2.2.2]; simp; omega

theorem processFile_spec (dk : String) (st : MState) (f : EnaFile) :
    (processFile dk st f).1.seen
        = st.seen ++ (dedupKeep (tkey dk) (tagRows f) st.seen).map (tkey dk)
    ∧ (processFile dk st f).1.merged
        = st.merged ++ dedupKeep (tkey dk) (tagRows f) st.seen
    ∧ (processFile dk st f).1.kq
        = kqFold st.kq (rowObs dk f.query_id f.rows)
    ∧ (processFile dk st f).2
        = ⟨f.query_id, f.rows.length,
           (dedupKeep (tkey dk) (tagRows f) st.seen).length,
           ((f.rows.foldl (fileRowStep dk f.query_id) (st, ⟨0, 0, []⟩)).2.uniq).length⟩ := by
  have h := fileFold_spec dk f.query_id f.rows st ⟨0, 0, []⟩
  have hmap : dedupKeep (tkey dk) (tagRows f) st.seen
      = (dedupKeep (rkey dk) f.rows st.seen).map (fun r => (f.query_id, r)) := by
    rw [tagRows, dedupKeep_map]
    rfl
  have hkeymap : (dedupKeep (tkey dk) (tagRows f) st.seen).map (tkey dk)
      = (dedupKeep (rkey dk) f.rows st.seen).map (rkey dk) := by
    rw [hmap, List.map_map]
    rfl
  refine ⟨?_, ?_, ?_, ?_⟩
  · rw [show (processFile dk st f).1 = (f.rows.foldl (fileRowStep dk f.query_id) (st, ⟨0, 0, []⟩)).1 from rfl]
    rw [h.1, hkeymap]
  · rw [show (processFile dk st f).1 = (f.rows.foldl (fileRowStep dk f.query_id) (st, ⟨0, 0, []⟩)).1 from rfl]
    rw [h.2.1, hmap]
  · rw [show (processFile dk st f).1 = (f.rows.foldl (fileRowStep dk f.query_id) (st, ⟨0, 0, []⟩)).1 from rfl]
    exact h.2.2.1
  · have hraw := h.2.2.2.1
    have hwr := h.2.2.2.2
    have hlen : (dedupKeep (tkey dk) (tagRows f) st.seen).length
        = (dedupKeep (rkey dk) f.rows st.seen).length := by
      rw [hmap, List.length_map]
    have hP : (processFile dk st f).2
        = ⟨f.query_id,
           (f.rows.foldl (fileRowStep dk f.query_id) (st, ⟨0, 0, []⟩)).2.raw,
           (f.rows.foldl (fileRowStep dk f.query_id) (st, ⟨0, 0, []⟩)).2.written,
           ((f.rows.foldl (fileRowStep dk f.query_id) (st, ⟨0, 0, []⟩)).2.uniq).length⟩ := rfl
    rw [hP, hraw, hwr, hlen]
    simp

theorem taggedRows_cons_skip {f : EnaFile} {fs : List EnaFile}
    (h : f.header = []) : taggedRows (f :: fs) = taggedRows fs := by
  simp [taggedRows, List.filter_cons, h]

theorem taggedRows_cons_keep {f : EnaFile} {fs : List EnaFile}
    (h : ¬ f.header = []) :
    taggedRows (f :: fs) = tagRows f ++ taggedRows fs := by
  have hb : (f.header != []) = true := bne_iff_ne.mpr h
  simp [taggedRows, List.filter_cons, hb]

theorem obsAll_cons_skip {dk : String} {f : EnaFile} {fs : List EnaFile}
    (h : f.header = []) : obsAll dk (f :: fs) = obsAll dk fs := by
  simp [obsAll, List.filter_cons, h]

theorem obsAll_cons_keep {dk : String} {f : EnaFile} {fs : List EnaFile}
    (h : ¬ f.header = []) :
    obsAll dk (f :: fs) = rowObs dk f.query_id f.rows ++ obsAll dk fs := by
  have hb : (f.header != []) = true := bne_iff_ne.mpr h
  simp [obsAll, List.filter_cons, hb]

theorem kqFold_append (kq : List (String × List String))
    (o1 o2 : List (String × String)) :
    kqFold kq (o1 ++ o2) = kqFold (kqFold kq o1) o2 := by
  rw [kqFold, List.foldl_append]
  rfl

theorem mergeGo_spec (dk : String) (href : List String) :
    ∀ (fs : List EnaFile) (st : MState) (stats : List QueryStats)
      (out : MState × List QueryStats),
      mergeGo dk href fs st stats = .ok out →
        out.1.seen = st.seen
            ++ (dedupKeep (tkey dk) (taggedRows fs) st.seen).map (tkey dk)
      ∧ out.1.merged = st.merged ++ dedupKeep (tkey dk) (taggedRows fs) st.seen
      ∧ out.1.kq = kqFold st.kq (obsAll dk fs)
      ∧ out.2.map (fun s => (s.query_id, s.input_rows))
          = stats.map (fun s => (s.query_id, s.input_rows))
            ++ (fs.filter (fun f => f.header != [])).map
                (fun f => (f.query_id, f.rows.length))
      ∧ (out.2.map QueryStats.written_rows).sum
          = (stats.map QueryStats.written_rows).sum
            + (dedupKeep (tkey dk) (taggedRows fs) st.seen).length := by
  intro fs
  induction fs with
  | nil =>
    intro st stats out h
    rw [mergeGo] at h
    injection h with h
    subst h
    simp [taggedRows, obsAll, dedupKeep, kqFold]
  | cons f fs ih =>
    intro st stats out h
    rw [mergeGo] at h
    by_cases h0 : f.header = []
    · rw [if_pos h0] at h
      have hf : ((f :: fs).filter (fun f => f.header != []))
          = fs.filter (fun f => f.header != []) := by
        simp [List.filter_cons, h0]
      rw [taggedRows_cons_skip h0, obsAll_cons_skip h0, hf]
      exact ih st stats out h
    · rw [if_neg h0] at h
      by_cases h1 : f.header ≠ href
      · rw [if_pos h1] at h
        simp at h
      · rw [if_neg h1] at h
        have hP := processFile_spec dk st f
        have hres := ih (processFile dk st f).1
          (stats ++ [(processFile dk st f).2]) out h
        have hb : (f.header != []) = true := bne_iff_ne.mpr h0
        have hf : ((f :: fs).filter (fun f => f.header != []))
            = f :: fs.filter (fun f => f.header != []) := by
          simp [List.filter_cons, hb]
        refine ⟨?_, ?_, ?_, ?_, ?_⟩
        · rw [hres.1, hP.1, taggedRows_cons_keep h0, dedupKeep_append,
              List.map_append, List.append_assoc]
        · rw [hres.2.1, hP.2.1, hP.1, taggedRows_cons_keep h0,
              dedupKeep_append, List.append_assoc]
        · rw [hres.2.2.1, hP.2.2.1, obsAll_cons_keep h0, kqFold_append]
        · rw [hres.2.2.2.1, hP.2.2.2, hf]
          simp
        · rw [hres.2.2.2.2, hP.2.2.2, hP.1, taggedRows_cons_keep h0,
              dedupKeep_append, List.length_append]
          simp
          omega

theorem mergeStart_spec (dk : String) :
    ∀ (files : List EnaFile) (out : MState × List QueryStats),
      mergeStart dk files = .ok out →
        out.1.seen = (dedupKeep (tkey dk) (taggedRows files) []).map (tkey dk)
      ∧ out.1.merged = dedupKeep (tkey dk) (taggedRows files) []
      ∧ out.1.kq = kqFold [] (obsAll dk files)
      ∧ out.2.map (fun s => (s.query_id, s.input_rows))
          = (files.filter (fun f => f.header != [])).map
              (fun f => (f.query_id, f.rows.length))
      ∧ (out.2.map QueryStats.written_rows).sum
          = (dedupKeep (tkey dk) (taggedRows files) []).length := by
  intro files
  induction files with
  | nil =>
    intro out h
    rw [mergeStart] at h
    injection h with h
    subst h
    simp [taggedRows, obsAll, dedupKeep, kqFold]
  | cons f fs ih =>
    intro out h
    rw [mergeStart] at h
    by_cases h0 : f.header = []
    · rw [if_pos h0] at h
      have hf : ((f :: fs).filter (fun f => f.header != []))
          = fs.filter (fun f => f.header != []) := by
        simp [List.filter_cons, h0]
      rw [taggedRows_cons_skip h0, obsAll_cons_skip h0, hf]
      exact ih out h
    · rw [if_neg h0] at h
      have hP := processFile_spec dk ⟨[], [], []⟩ f
      have hres := mergeGo_spec dk f.header fs
        (processFile dk ⟨[], [], []⟩ f).1 [(processFile dk ⟨[], [], []⟩ f).2]
        out h
      have hb : (f.header != []) = true := bne_iff_ne.mpr h0
      have hf : ((f :: fs).filter (fun f => f.header != []))
          = f :: fs.filter (fun f => f.header != []) := by
        simp [List.filter_cons, hb]
      refine ⟨?_, ?_, ?_, ?_, ?_⟩
      · rw [hres.1, hP.1, taggedRows_cons_keep h0, dedupKeep_append,
            List.map_append]
        simp
      · rw [hres.2.1, hP.2.1, hP.1, taggedRows_cons_keep h0, dedupKeep_append]
        simp
      · rw [hres.2.2.1, hP.2.2.1, obsAll_cons_keep h0, kqFold_append]
      · rw [hres.2.2.2.1, hP.2.2.2, hf]
        simp
      · rw [hres.2.2.2.2, hP.2.2.2, hP.1, taggedRows_cons_keep h0,
            dedupKeep_append, List.length_append]
        simp

theorem main_spec (dk : String) (files : List EnaFile)
    (out : MState × List QueryStats) (h : main dk files = .ok out) :
    out.1.seen = (dedupKeep (tkey dk) (taggedRows files) []).map (tkey dk)
    ∧ out.1.merged = dedupKeep (tkey dk) (taggedRows files) []
    ∧ out.1.kq = kqFold [] (obsAll dk files)
    ∧ out.2.map (fun s => (s.query_id, s.input_rows))
        = (files.filter (fun f => f.header != [])).map
            (fun f => (f.query_id, f.rows.length))
    ∧ (out.2.map QueryStats.written_rows).sum
        = (dedupKeep (tkey dk) (taggedRows files) []).length := by
  rw [main] at h
  by_cases h0 : files = []
  · rw [if_pos h0] at h
    simp at h
  · rw [if_neg h0] at h
    exact mergeStart_spec dk files out h

end EnaMerge

namespace EnaMergeBarebones

/-- Cross-file state of `ena_merge_dedup_barebones.py`: the
`key_to_queries` index and the merged rows (every row is written). -/
structure BState where
  kq : List (String × List String)
  merged : List (String × Row)
deriving DecidableEq

/-- Per-file counters: `raw_rows` and `dedup_keys_in_file`. -/
structure FileCtr where
  raw : Nat
  uniq : List String
deriving DecidableEq

/-- One line of the barebones `summary.tsv`. -/
structure QueryStats where
  query_id : String
  run_lines : Nat
  unique_keys : Nat
deriving DecidableEq

/-- The body of the `for row in reader` loop of
`ena_merge_dedup_barebones.py` (lines 71-82): the row is always written;
only the key index is updated conditionally. -/
def fileRowStep (dk q : String) (a : BState × FileCtr) (row : Row) :
    BState × FileCtr :=
  let st : BState := { a.1 with merged := a.1.merged ++ [(q, row)] }
  let c : FileCtr := { a.2 with raw := a.2.raw + 1 }
  let kv := rkey dk row
  if kv = "" then (st, c)
  else ({ st with kq := kqAdd st.kq kv q }, { c with uniq := insertNew kv c.uniq })

/-- Processing of one input file of the barebones merge. -/
def processFile (dk : String) (st : BState) (f : EnaMerge.EnaFile) :
    BState × QueryStats :=
  let r := f.rows.foldl (fileRowStep dk f.query_id) (st, ⟨0, []⟩)
  (r.1, ⟨f.query_id, r.2.raw, r.2.uniq.length⟩)

/-- File loop after `header_ref` has been fixed. -/
def mergeGo (dk : String) (href : List String) :
    List EnaMerge.EnaFile → BState → List QueryStats →
      Except String (BState × List QueryStats)
  | [], st, stats => .ok (st, stats)
  | f :: fs, st, stats =>
    if f.header = [] then mergeGo dk href fs st stats
    else if f.header ≠ href then .error "Header mismatch"
    else mergeGo dk href fs (processFile dk st f).1
      (stats ++ [(processFile dk st f).2])

/-- File loop before any file has provided `header_ref`. -/
def mergeStart (dk : String) : List EnaMerge.EnaFile →
    Except String (BState × List QueryStats)
  | [] => .ok (⟨[], []⟩, [])
  | f :: fs =>
    if f.header = [] then mergeStart dk fs
    else mergeGo dk f.header fs (processFile dk ⟨[], []⟩ f).1
      [(processFile dk ⟨[], []⟩ f).2]

/-- Model of `ena_merge_dedup_barebones.py main()` on parsed input files in
sorted path order. -/
def main (dk : String) (files : List EnaMerge.EnaFile) :
    Except String (BState × List QueryStats) :=
  if files = [] then .error "No files matched --per_query_glob"
  else mergeStart dk files

theorem ebFileFold_spec (dk q : String) :
    ∀ (rows : List Row) (st : BState) (c : FileCtr),
      (rows.foldl (fileRowStep dk q) (st, c)).1.merged
          = st.merged ++ rows.map (fun r => (q, r))
      ∧ (rows.foldl (fileRowStep dk q) (st, c)).2.raw = c.raw + rows.length := by
  intro rows
  induction rows with
  | nil => intro st c; simp
  | cons r rs ih =>
    intro st c
    rw [List.foldl_cons]
    by_cases h0 : rkey dk r = ""
    · have hstep : fileRowStep dk q (st, c) r =
          ({ st with merged := st.merged ++ [(q, r)] },
           { c with raw := c.raw + 1 }) := by
        simp [fileRowStep, h0]
      rw [hstep]
      have := ih { st with merged := st.merged ++ [(q, r)] }
        { c with raw := c.raw + 1 }
      refine ⟨?_, ?_⟩
      · rw [this.1]; simp
      · rw [this.2]; simp; omega
    · have hstep : fileRowStep dk q (st, c) r =
          ({ st with merged := st.merged ++ [(q, r)],
                     kq := kqAdd st.kq (rkey dk r) q },
           { c with raw := c.raw + 1, uniq := insertNew (rkey dk r) c.uniq }) := by
        simp [fileRowStep, h0]
      rw [hstep]
      have := ih { st with merged := st.merged ++ [(q, r)],
                           kq := kqAdd st.kq (rkey dk r) q }
        { c with raw := c.raw + 1, uniq := insertNew (rkey dk r) c.uniq }
      refine ⟨?_, ?_⟩
      · rw [this.1]; simp
      · rw [this.2]; simp; omega

theorem ebProcessFile_spec (dk : String) (st : BState) (f : EnaMerge.EnaFile) :
    (processFile dk st f).1.merged = st.merged ++ EnaMerge.tagRows f
    ∧ (processFile dk st f).2.run_lines = f.rows.length
    ∧ (processFile dk st f).2.query_id = f.query_id := by
  have h := ebFileFold_spec dk f.query_id f.rows st ⟨0, []⟩
  refine ⟨h.1, ?_, rfl⟩
  have : (processFile dk st f).2.run_lines
      = (f.rows.foldl (fileRowStep dk f.query_id) (st, ⟨0, []⟩)).2.raw := rfl
  rw [this, h.2]
  simp

theorem ebMergeGo_spec (dk : String) (href : List String) :
    ∀ (fs : List EnaMerge.EnaFile) (st : BState) (stats : List QueryStats)
      (out : BState × List QueryStats),
      mergeGo dk href fs st stats = .ok out →
        out.1.merged = st.merged ++ EnaMerge.taggedRows fs
      ∧ (out.2.map QueryStats.run_lines).sum
          = (stats.map QueryStats.run_lines).sum
            + (EnaMerge.taggedRows fs).length := by
  intro fs
  induction fs with
  | nil =>
    intro st stats out h
    rw [mergeGo] at h
    injection h with h
    subst h
    simp [EnaMerge.taggedRows]
  | cons f fs ih =>
    intro st stats out h
    rw [mergeGo] at h
    by_cases h0 : f.header = []
    · rw [if_pos h0] at h
      rw [EnaMerge.taggedRows_cons_skip h0]
      exact ih st stats out h
    · rw [if_neg h0] at h
      by_cases h1 : f.header ≠ href
      · rw [if_pos h1] at h
        simp at h
      · rw [if_neg h1] at h
        have hP := ebProcessFile_spec dk st f
        have hres := ih (processFile dk st f).1
          (stats ++ [(processFile dk st f).2]) out h
        rw [EnaMerge.taggedRows_cons_keep h0]
        refine ⟨?_, ?_⟩
        · rw [hres.1, hP.1, List.append_assoc]
        · rw [hres.2, List.length_append]
          simp [List.map_append, List.sum_append, hP.2.1, EnaMerge.tagRows]
          omega

theorem ebMergeStart_spec (dk : String) :
    ∀ (files : List EnaMerge.EnaFile) (out : BState × List QueryStats),
      mergeStart dk files = .ok out →
        out.1.merged = EnaMerge.taggedRows files
      ∧ (out.2.map QueryStats.run_lines).sum = (EnaMerge.taggedRows files).length := by
  intro files
  induction files with
  | nil =>
    intro out h
    rw [mergeStart] at h
    injection h with h
    subst h
    simp [EnaMerge.taggedRows]
  | cons f fs ih =>
    intro out h
    rw [mergeStart] at h
    by_cases h0 : f.header = []
    · rw [if_pos h0] at h
      rw [EnaMerge.taggedRows_cons_skip h0]
      exact ih out h
    · rw [if_neg h0] at h
      have hP := ebProcessFile_spec dk ⟨[], []⟩ f
      have hres := ebMergeGo_spec dk f.header fs
        (processFile dk ⟨[], []⟩ f).1 [(processFile dk ⟨[], []⟩ f).2] out h
      rw [EnaMerge.taggedRows_cons_keep h0]
      refine ⟨?_, ?_⟩
      · rw [hres.1, hP.1]
        simp
      · rw [hres.2, List.length_append]
        simp [List.map_append, List.sum_append, hP.2.1, EnaMerge.tagRows]

theorem ebMain_spec (dk : String) (files : List EnaMerge.EnaFile)
    (out : BState × List QueryStats) (h : main dk files = .ok out) :
    out.1.merged = EnaMerge.taggedRows files
    ∧ (out.2.map QueryStats.run_lines).sum = (EnaMerge.taggedRows files).length := by
  rw [main] at h
  by_cases h0 : files = []
  · rw [if_pos h0] at h
    simp at h
  · rw [if_neg h0] at h
    exact ebMergeStart_spec dk files out h

end EnaMergeBarebones

/-! ## The numeric parser shared by the two row filters

`ena_slim.py` and `sra_slim.py` define the identical helper
`parse_int(x)`: strip the value, return `0` for the empty string, otherwise
return `int(float(x))`, and return `0` when anything raises.  We model the
decimal/exponent grammar of `float` exactly over rationals expressed as
mantissa times a power of ten, and model `int(...)` as truncation toward
zero; this agrees with CPython wherever the decimal value is exactly
representable in binary64 (read counts are), and maps `inf`/`nan` to `0`
exactly as the Python code does via its exception handler.  Underscore
digit separators, accepted by `float` since Python 3.6, are not modelled. -/

/-- Decimal digit test. -/
def isDigitCh (c : Char) : Bool :=
  48 ≤ c.toNat && c.toNat ≤ 57

/-- Accumulate a digit run into a natural number. -/
def digitsToNat (acc : Nat) : List Char → Nat
  | [] => acc
  | c :: cs => digitsToNat (acc * 10 + (c.toNat - 48)) cs

/-- The parsed shape of a decimal literal: sign, mantissa digits as one
natural number, number of digits after the point, explicit exponent. -/
structure DecForm where
  neg : Bool
  mant : Nat
  fracLen : Nat
  exp : Int
deriving DecidableEq

/-- Consume an optional leading sign; `true` means negative. -/
def parseSign : List Char → Bool × List Char
  | '+' :: cs => (false, cs)
  | '-' :: cs => (true, cs)
  | cs => (false, cs)

/-- Parse the optional exponent suffix (nothing, or `e`/`E`, optional sign,
at least one digit, end of string). -/
def parseExpTail (cs : List Char) : Option Int :=
  match cs with
  | [] => some 0
  | e :: rest =>
    if e == 'e' || e == 'E' then
      match parseSign rest with
      | (eneg, rest2) =>
        match rest2.span isDigitCh with
        | (ds, rest3) =>
          if ds = [] ∨ rest3 ≠ [] then none
          else some (if eneg then -(digitsToNat 0 ds : Int) else (digitsToNat 0 ds : Int))
    else none

/-- Parse a full decimal literal (the grammar of Python `float` on finite
decimal inputs). -/
def parseDecCore (cs : List Char) : Option DecForm :=
  match parseSign cs with
  | (neg, cs1) =>
    match cs1.span isDigitCh with
    | (ip, cs2) =>
      match cs2 with
      | '.' :: cs3 =>
        match cs3.span isDigitCh with
        | (fp, cs4) =>
          if ip = [] ∧ fp = [] then none
          else
            match parseExpTail cs4 with
            | none => none
            | some e => some ⟨neg, digitsToNat 0 (ip ++ fp), fp.length, e⟩
      | _ =>
        if ip = [] then none
        else
          match parseExpTail cs2 with
          | none => none
          | some e => some ⟨neg, digitsToNat 0 ip, 0, e⟩

/-- Parse a decimal literal from a string. -/
def parseDec (s : String) : Option DecForm :=
  parseDecCore s.data

/-- Magnitude of the toward-zero truncation of
`mant * 10 ^ exp / 10 ^ fracLen`. -/
def decTruncMag (d : DecForm) : Nat :=
  if (d.fracLen : Int) ≤ d.exp then d.mant * 10 ^ (d.exp - d.fracLen).toNat
  else d.mant / 10 ^ ((d.fracLen : Int) - d.exp).toNat

/-- The signed toward-zero truncation of the parsed decimal value,
modelling `int(float(x))`. -/
def decTrunc (d : DecForm) : Int :=
  if d.neg then -(decTruncMag d : Int) else (decTruncMag d : Int)

/-- Model of `parse_int` from `ena_slim.py` (lines 67-74) and `sra_slim.py`
(lines 18-25): strip, return 0 on empty or on any parse failure, otherwise
truncate the decimal value toward zero. -/
def parse_int (x : String) : Int :=
  match parseDec (pyStrip x) with
  | none => 0
  | some d => decTrunc d

namespace EnaSlim

/-- Threshold `MIN_READS = 100_000`. -/
def MIN_READS : Nat := 100000

/-- `KEEP_LIBRARY_SELECTION`. -/
def KEEP_LIBRARY_SELECTION : String := "RANDOM"

/-- `KEEP_LIBRARY_SOURCE`. -/
def KEEP_LIBRARY_SOURCE : String := "METAGENOMIC"

/-- `KEEP_SCIENTIFIC_NAME`. -/
def KEEP_SCIENTIFIC_NAME : String := "Homo sapiens"

/-- The deny-list `EXCLUDE_STRATEGY_TERMS`. -/
def EXCLUDE_STRATEGY_TERMS : List String :=
  ["amplicon", "wxs", "targeted-capture", "targeted_capture", "targeted", "wga"]

/-- The fixed output schema `OUT_COLS`. -/
def OUT_COLS : List String :=
  ["study_accession", "run_accession", "read_count", "library_strategy",
   "library_source", "library_selection", "library_layout",
   "instrument_platform", "instrument_model", "scientific_name", "tax_id"]

/-- `norm(s) = (s or "").strip().lower()`. -/
def norm (s : String) : String :=
  pyLower (pyStrip s)

/-- `is_wgs_only(strategy)` (lines 79-85): non-empty, no deny-listed
substring, equal to or starting with `wgs` after normalisation. -/
def is_wgs_only (strategy : String) : Bool :=
  let s := norm strategy
  if s = "" then false
  else if EXCLUDE_STRATEGY_TERMS.any (fun t => containsStr s t) then false
  else s == "wgs" || pyStartsWith s "wgs"

/-- The fate of one input row in the filter chain of `main()`
(lines 137-172), in source order. -/
inductive RowFate
  | keep
  | missingFields
  | lowReads
  | nonWgs
  | nonRandom
  | nonMetagenomic
  | nonHsapiens
deriving DecidableEq

/-- Bool test for the kept fate. -/
def isKeep : RowFate → Bool
  | .keep => true
  | _ => false

/-- Bool test for the low-read-count fate. -/
def isLowReads : RowFate → Bool
  | .lowReads => true
  | _ => false

/-- The rejection chain of `main()`: each test in source order, first
failing test wins. -/
def classify (row : Row) : RowFate :=
  if pyStrip (rget row "study_accession") = "" ∨
     pyStrip (rget row "run_accession") = "" then .missingFields
  else if parse_int (rget row "read_count") < (MIN_READS : Int) then .lowReads
  else if ¬ is_wgs_only (pyStrip (rget row "library_strategy")) = true then .nonWgs
  else if ¬ norm (pyStrip (rget row "library_selection"))
         = norm KEEP_LIBRARY_SELECTION then .nonRandom
  else if ¬ norm (pyStrip (rget row "library_source"))
         = norm KEEP_LIBRARY_SOURCE then .nonMetagenomic
  else if ¬ norm (pyStrip (rget row "scientific_name"))
         = norm KEEP_SCIENTIFIC_NAME then .nonHsapiens
  else .keep

/-- The written projection of a kept row:
`{c: (row.get(c) or "").strip() for c in OUT_COLS}`. -/
def outRow (row : Row) : Row :=
  OUT_COLS.map (fun c => (c, pyStrip (rget row c)))

/-- The skip counters of `main()`. -/
structure Ctr where
  rows_in : Nat
  rows_out : Nat
  skipped_low_reads : Nat
  skipped_non_wgs : Nat
  skipped_missing_fields : Nat
  skipped_non_random : Nat
  skipped_non_metagenomic : Nat
  skipped_non_hsapiens : Nat
deriving DecidableEq

/-- One pass of the row loop body. -/
def step (a : List Row × Ctr) (row : Row) : List Row × Ctr :=
  let c : Ctr := { a.2 with rows_in := a.2.rows_in + 1 }
  match classify row with
  | .missingFields =>
    (a.1, { c with skipped_missing_fields := c.skipped_missing_fields + 1 })
  | .lowReads => (a.1, { c with skipped_low_reads := c.skipped_low_reads + 1 })
  | .nonWgs => (a.1, { c with skipped_non_wgs := c.skipped_non_wgs + 1 })
  | .nonRandom => (a.1, { c with skipped_non_random := c.skipped_non_random + 1 })
  | .nonMetagenomic =>
    (a.1, { c with skipped_non_metagenomic := c.skipped_non_metagenomic + 1 })
  | .nonHsapiens =>
    (a.1, { c with skipped_non_hsapiens := c.skipped_non_hsapiens + 1 })
  | .keep => (a.1 ++ [outRow row], { c with rows_out := c.rows_out + 1 })

/-- Model of the row loop of `ena_slim.py main()` on the parsed data rows
(header validation precedes this loop and aborts the run before any row is
processed). -/
def run (rows : List Row) : List Row × Ctr :=
  rows.foldl step ([], ⟨0, 0, 0, 0, 0, 0, 0, 0⟩)

theorem run_fold_spec :
    ∀ (rows : List Row) (out : List Row) (c : Ctr),
      (rows.foldl step (out, c)).1
          = out ++ (rows.filter (fun r => isKeep (classify r))).map outRow
      ∧ (rows.foldl step (out, c)).2.skipped_low_reads
          = c.skipped_low_reads
            + rows.countP (fun r => isLowReads (classify r))
      ∧ (rows.foldl step (out, c)).2.rows_in = c.rows_in + rows.length := by
  intro rows
  induction rows with
  | nil => intro out c; simp
  | cons r rs ih =>
    intro out c
    rw [List.foldl_cons, List.filter_cons, List.countP_cons]
    cases hc : classify r
    all_goals {
      simp only [step, hc]
      refine ⟨?_, ?_, ?_⟩
      · rw [(ih _ _).1]
        simp [isKeep]
      · rw [(ih _ _).2.1]
        simp [isLowReads]
        try omega
      · rw [(ih _ _).2.2]
        simp
        try omega
    }

theorem run_out (rows : List Row) :
    (run rows).1 = (rows.filter (fun r => isKeep (classify r))).map outRow := by
  have := run_fold_spec rows [] ⟨0, 0, 0, 0, 0, 0, 0, 0⟩
  rw [run, this.1]
  simp

theorem run_low_reads (rows : List Row) :
    (run rows).2.skipped_low_reads
      = rows.countP (fun r => isLowReads (classify r)) := by
  have := run_fold_spec rows [] ⟨0, 0, 0, 0, 0, 0, 0, 0⟩
  rw [run, this.2.1]
  simp

end EnaSlim

namespace SraSlim

/-- `MIN_SPOTS = 100_000`. -/
def MIN_SPOTS : Nat := 100000

/-- `KEEP_LIBRARY_COMBINED`. -/
def KEEP_LIBRARY_COMBINED : String := "WGS/RANDOM"

/-- `KEEP_LIBRARY_SOURCE`. -/
def KEEP_LIBRARY_SOURCE : String := "METAGENOMIC"

/-- `KEEP_SCIENTIFIC_NAME`. -/
def KEEP_SCIENTIFIC_NAME : String := "Homo sapiens"

/-- `norm(s)` (identical to the helper of `ena_slim.py`). -/
def norm (s : String) : String :=
  pyLower (pyStrip s)

/-- `combined_strategy(row)` (lines 30-42): keep a strategy already of the
form `A/B`, otherwise join strategy and selection with `/`. -/
def combined_strategy (row : Row) : String :=
  let strat := pyStrip (rget row "LibraryStrategy")
  let sel := pyStrip (rget row "LibrarySelection")
  if containsStr strat "/" then strat
  else if sel ≠ "" then (if strat ≠ "" then strat ++ "/" ++ sel else sel)
  else strat

/-- The fate of one input row in the filter chain of `main()`
(lines 103-134), in source order. -/
inductive RowFate
  | keep
  | missingRun
  | missingBioproject
  | lowSpots
  | nonHsapiens
  | nonMetagenomic
  | nonMatchingStrategy
deriving DecidableEq

/-- Bool test for the kept fate. -/
def isKeepS : RowFate → Bool
  | .keep => true
  | _ => false

/-- Bool test for the low-spots fate. -/
def isLowSpots : RowFate → Bool
  | .lowSpots => true
  | _ => false

/-- The rejection chain of `main()`: each test in source order, first
failing test wins. -/
def classify (row : Row) : RowFate :=
  if pyStrip (rget row "Run") = "" then .missingRun
  else if pyStrip (rget row "BioProject") = "" then .missingBioproject
  else if parse_int (rget row "spots") < (MIN_SPOTS : Int) then .lowSpots
  else if ¬ norm (pyStrip (rget row "ScientificName"))
         = norm KEEP_SCIENTIFIC_NAME then .nonHsapiens
  else if ¬ norm (pyStrip (rget row "LibrarySource"))
         = norm KEEP_LIBRARY_SOURCE then .nonMetagenomic
  else if ¬ norm (combined_strategy row) = norm KEEP_LIBRARY_COMBINED then
    .nonMatchingStrategy
  else .keep

/-- The written output row of a kept row (lines 136-156), in the declared
`out_fields` order; `SeqType` is `paired` exactly when the trimmed,
upper-cased `LibraryLayout` is `PAIRED`, and `single` otherwise. -/
def outRow (row : Row) : Row :=
  [("BioProject", pyStrip (rget row "BioProject")),
   ("Run", pyStrip (rget row "Run")),
   ("spots", pyStrip (rget row "spots")),
   ("spots_with_mates", pyStrip (rget row "spots_with_mates")),
   ("SeqType",
     if pyUpper (pyStrip (rget row "LibraryLayout")) = "PAIRED"
     then "paired" else "single"),
   ("SequencingMachine",
     if pyStrip (rget row "Model") ≠ "" then pyStrip (rget row "Model")
     else pyStrip (rget row "Platform")),
   ("ScientificName", pyStrip (rget row "ScientificName")),
   ("LibraryStrategy", combined_strategy row),
   ("LibrarySource", pyStrip (rget row "LibrarySource"))]

/-- The counters of `main()` needed by the claims. -/
structure Ctr where
  rows_in : Nat
  rows_out : Nat
  skipped_missing_run : Nat
  skipped_missing_bioproject : Nat
  skipped_low_spots : Nat
  skipped_non_hsapiens : Nat
  skipped_non_metagenomic : Nat
  skipped_non_matching_strategy : Nat
deriving DecidableEq

/-- One pass of the row loop body. -/
def step (a : List Row × Ctr) (row : Row) : List Row × Ctr :=
  let c : Ctr := { a.2 with rows_in := a.2.rows_in + 1 }
  match classify row with
  | .missingRun =>
    (a.1, { c with skipped_missing_run := c.skipped_missing_run + 1 })
  | .missingBioproject =>
    (a.1, { c with skipped_missing_bioproject := c.skipped_missing_bioproject + 1 })
  | .lowSpots => (a.1, { c with skipped_low_spots := c.skipped_low_spots + 1 })
  | .nonHsapiens =>
    (a.1, { c with skipped_non_hsapiens := c.skipped_non_hsapiens + 1 })
  | .nonMetagenomic =>
    (a.1, { c with skipped_non_metagenomic := c.skipped_non_metagenomic + 1 })
  | .nonMatchingStrategy =>
    (a.1, { c with skipped_non_matching_strategy := c.skipped_non_matching_strategy + 1 })
  | .keep => (a.1 ++ [outRow row], { c with rows_out := c.rows_out + 1 })

/-- Model of the row loop of `sra_slim.py main()` on the parsed data rows. -/
def run (rows : List Row) : List Row × Ctr :=
  rows.foldl step ([], ⟨0, 0, 0, 0, 0, 0, 0, 0⟩)

theorem sraRun_fold_spec :
    ∀ (rows : List Row) (out : List Row) (c : Ctr),
      (rows.foldl step (out, c)).1
          = out ++ (rows.filter (fun r => isKeepS (classify r))).map outRow
      ∧ (rows.foldl step (out, c)).2.skipped_low_spots
          = c.skipped_low_spots
            + rows.countP (fun r => isLowSpots (classify r)) := by
  intro rows
  induction rows with
  | nil => intro out c; simp
  | cons r rs ih =>
    intro out c
    rw [List.foldl_cons, List.filter_cons, List.countP_cons]
    cases hc : classify r
    all_goals {
      simp only [step, hc]
      refine ⟨?_, ?_⟩
      · rw [(ih _ _).1]
        simp [isKeepS]
      · rw [(ih _ _).2]
        simp [isLowSpots]
        try omega
    }

theorem sraRun_out (rows : List Row) :
    (run rows).1 = (rows.filter (fun r => isKeepS (classify r))).map outRow := by
  have := sraRun_fold_spec rows [] ⟨0, 0, 0, 0, 0, 0, 0, 0⟩
  rw [run, this.1]
  simp

theorem run_low_spots (rows : List Row) :
    (run rows).2.skipped_low_spots
      = rows.countP (fun r => isLowSpots (classify r)) := by
  have := sraRun_fold_spec rows [] ⟨0, 0, 0, 0, 0, 0, 0, 0⟩
  rw [run, this.2]
  simp

end SraSlim

namespace MergeSraEna

/-- The unified output schema `OUT_FIELDS`. -/
def OUT_FIELDS : List String :=
  ["project_accession", "run_accession", "spots_or_reads", "spots_with_mates",
   "library_layout", "seq_type", "instrument_platform", "instrument_model",
   "sequencing_machine", "scientific_name", "library_strategy",
   "library_selection", "library_source", "source_db"]

/-- `norm(s) = (s or "").strip()`. -/
def norm (s : String) : String :=
  pyStrip s

/-- Split a character list at the first slash (the list is known to
contain one when this is reached). -/
def splitFirstSlash : List Char → List Char × List Char
  | [] => ([], [])
  | c :: cs =>
    if c == '/' then ([], cs)
    else ((splitFirstSlash cs).1.cons c, (splitFirstSlash cs).2)

/-- `split_strategy_selection(strategy)` (lines 44-53): split
`WGS/RANDOM`-shaped values at the first slash, else return
`(strategy, "")`. -/
def split_strategy_selection (strategy : String) : String × String :=
  let s := norm strategy
  if containsStr s "/" then
    (pyStrip (String.mk (splitFirstSlash s.data).1),
     pyStrip (String.mk (splitFirstSlash s.data).2))
  else (s, "")

/-- `infer_seq_type_from_layout(layout)` (lines 55-61). -/
def infer_seq_type_from_layout (layout : String) : String :=
  let l := pyUpper (pyStrip layout)
  if l = "PAIRED" then "paired"
  else if l = "SINGLE" then "single"
  else ""

/-- The run key of an SRA row: `norm(row.get("Run"))`. -/
def sraKey (r : Row) : String :=
  norm (rget r "Run")

/-- The run key of an ENA row: `norm(row.get("run_accession"))`. -/
def enaKey (r : Row) : String :=
  norm (rget r "run_accession")

/-- The out_row built from one SRA row (lines 100-118), listed in
`OUT_FIELDS` order as the `csv.DictWriter` writes it. -/
def sraOutRow (r : Row) : Row :=
  [("project_accession", norm (rget r "BioProject")),
   ("run_accession", sraKey r),
   ("spots_or_reads", norm (rget r "spots")),
   ("spots_with_mates", norm (rget r "spots_with_mates")),
   ("library_layout", ""),
   ("seq_type", norm (rget r "SeqType")),
   ("instrument_platform", ""),
   ("instrument_model", ""),
   ("sequencing_machine", norm (rget r "SequencingMachine")),
   ("scientific_name", norm (rget r "ScientificName")),
   ("library_strategy", (split_strategy_selection (norm (rget r "LibraryStrategy"))).1),
   ("library_selection", (split_strategy_selection (norm (rget r "LibraryStrategy"))).2),
   ("library_source", norm (rget r "LibrarySource")),
   ("source_db", "SRA")]

/-- The out_row built from one ENA row (lines 152-172), listed in
`OUT_FIELDS` order. -/
def enaOutRow (r : Row) : Row :=
  [("project_accession", norm (rget r "study_accession")),
   ("run_accession", enaKey r),
   ("spots_or_reads", norm (rget r "read_count")),
   ("spots_with_mates", ""),
   ("library_layout", norm (rget r "library_layout")),
   ("seq_type", infer_seq_type_from_layout (norm (rget r "library_layout"))),
   ("instrument_platform", norm (rget r "instrument_platform")),
   ("instrument_model", norm (rget r "instrument_model")),
   ("sequencing_machine",
     if norm (rget r "instrument_model") ≠ "" then norm (rget r "instrument_model")
     else norm (rget r "instrument_platform")),
   ("scientific_name", norm (rget r "scientific_name")),
   ("library_strategy", norm (rget r "library_strategy")),
   ("library_selection", norm (rget r "library_selection")),
   ("library_source", norm (rget r "library_source")),
   ("source_db", "ENA")]

/-- The mutable state of `merge_files`: the `seen_runs` set, the written
output rows, and the `written` / `dropped_dupes` counters. -/
structure MergeAcc where
  seen : List String
  out : List Row
  written : Nat
  dropped : Nat
deriving DecidableEq

/-- The shared row-loop body of `merge_files` (lines 91-122 for SRA,
lines 143-176 for ENA), parametric in the key extractor and the out-row
builder of the current source. -/
def rowStep (dedup_by_run : Bool) (key : Row → String) (mk : Row → Row)
    (a : MergeAcc) (row : Row) : MergeAcc :=
  if key row = "" then a
  else if dedup_by_run ∧ key row ∈ a.seen then
    { a with dropped := a.dropped + 1 }
  else
    { a with out := a.out ++ [mk row], seen := a.seen ++ [key row],
             written := a.written + 1 }

/-- Model of `merge_files(ena, sra, out, dedup_by_run)` on the parsed data
rows: the SRA file is processed first, then the ENA file (header and
required-column validation precede each loop). -/
def merge_files (enaRows sraRows : List Row) (dedup_by_run : Bool) : MergeAcc :=
  (enaRows.foldl (rowStep dedup_by_run enaKey enaOutRow)
    (sraRows.foldl (rowStep dedup_by_run sraKey sraOutRow) ⟨[], [], 0, 0⟩))

theorem rowStep_fold_spec (key : Row → String) (mk : Row → Row) :
    ∀ (rows : List Row) (a : MergeAcc),
      (rows.foldl (rowStep true key mk) a).seen
          = a.seen ++ (dedupKeep key rows a.seen).map key
      ∧ (rows.foldl (rowStep true key mk) a).out
          = a.out ++ (dedupKeep key rows a.seen).map mk
      ∧ (rows.foldl (rowStep true key mk) a).written
          = a.written + (dedupKeep key rows a.seen).length
      ∧ (rows.foldl (rowStep true key mk) a).dropped
          = a.dropped + dupCount key rows a.seen := by
  intro rows
  induction rows with
  | nil => intro a; simp [dedupKeep, dupCount]
  | cons r rs ih =>
    intro a
    rw [List.foldl_cons, dedupKeep, dupCount]
    by_cases h0 : key r = ""
    · have hstep : rowStep true key mk a r = a := by
        simp [rowStep, h0]
      rw [hstep, if_pos h0, if_pos h0]
      exact ih a
    · rw [if_neg h0, if_neg h0]
      by_cases h1 : key r ∈ a.seen
      · have hstep : rowStep true key mk a r = { a with dropped := a.dropped + 1 } := by
          simp [rowStep, h0, h1]
        rw [hstep, if_pos h1, if_pos h1]
        have := ih { a with dropped := a.dropped + 1 }
        refine ⟨this.1, this.2.1, this.2.2.1, ?_⟩
        rw [this.2.2.2]
        simp
        omega
      · have hstep : rowStep true key mk a r =
            { a with out := a.out ++ [mk r], seen := a.seen ++ [key r],
                     written := a.written + 1 } := by
          simp [rowStep, h0, h1]
        rw [hstep, if_neg h1, if_neg h1]
        have := ih { a with out := a.out ++ [mk r], seen := a.seen ++ [key r],
                            written := a.written + 1 }
        refine ⟨?_, ?_, ?_, ?_⟩
        · rw [this.1]; simp [List.append_assoc]
        · rw [this.2.1]; simp [List.append_assoc]
        · rw [this.2.2.1]; simp; omega
        · exact this.2.2.2

/-- The tagged concatenation of both sources in processing order (SRA rows
first), with the per-source key and row builder. -/
def mergeInputs (enaRows sraRows : List Row) : List (Row ⊕ Row) :=
  sraRows.map Sum.inl ++ enaRows.map Sum.inr

/-- The per-source run key on tagged rows. -/
def skey : Row ⊕ Row → String
  | .inl r => sraKey r
  | .inr r => enaKey r

/-- The per-source out-row builder on tagged rows. -/
def smk : Row ⊕ Row → Row
  | .inl r => sraOutRow r
  | .inr r => enaOutRow r

theorem merge_files_out_eq (enaRows sraRows : List Row) :
    (merge_files enaRows sraRows true).out
      = (dedupKeep skey (mergeInputs enaRows sraRows) []).map smk := by
  have hs := rowStep_fold_spec sraKey sraOutRow sraRows ⟨[], [], 0, 0⟩
  have he := rowStep_fold_spec enaKey enaOutRow enaRows
    (sraRows.foldl (rowStep true sraKey sraOutRow) ⟨[], [], 0, 0⟩)
  rw [merge_files, he.2.1, hs.2.1, hs.1]
  rw [mergeInputs, dedupKeep_append, List.map_append]
  rw [dedupKeep_map skey Sum.inl, dedupKeep_map skey Sum.inr]
  have h1 : (fun a => skey (Sum.inl a)) = sraKey := rfl
  have h2 : (fun a => skey (Sum.inr a)) = enaKey := rfl
  rw [h1, h2, List.map_map, List.map_map, List.map_map]
  have h3 : smk ∘ Sum.inl = sraOutRow := rfl
  have h4 : smk ∘ Sum.inr = enaOutRow := rfl
  have h5 : skey ∘ Sum.inl = sraKey := rfl
  rw [h3, h4, h5]
  simp

end MergeSraEna

namespace SraMergeBioproject

/-- One parsed input file of `sra_merge_bioproject.py`: its own header
(`reader.fieldnames`, empty when the file has none) and its parsed rows;
each row's keys are that file's own columns. -/
structure SbFile where
  header : List String
  rows : List Row
deriving DecidableEq

/-- The run key: `(row.get("Run") or "").strip()`. -/
def runKey (r : Row) : String :=
  pyStrip (rget r "Run")

/-- Model of `csv.DictWriter.writerow(row)` with the default
`extrasaction='raise'` and `restval=''`: a `ValueError` is raised when the
row holds a key outside `fieldnames`; otherwise the cells are emitted in
`fieldnames` order, absent columns as the empty string. -/
def dictWriterRow (fieldnames : List String) (row : Row) :
    Except String (List String) :=
  if row.all (fun kv => fieldnames.contains kv.1) then
    .ok (fieldnames.map (fun c => (List.lookup c row).getD ""))
  else .error "dict contains fields not in fieldnames"

/-- The cells the writer emits for an accepted row. -/
def projRow (fieldnames : List String) (row : Row) : List String :=
  fieldnames.map (fun c => (List.lookup c row).getD "")

/-- The mutable state of `main()`: `seen_runs`, the written csv records,
and the `wrote` / `total_rows_read` / `skipped_no_run` counters. -/
structure Acc where
  seen : List String
  out : List (List String)
  wrote : Nat
  total : Nat
  skipped_no_run : Nat
deriving DecidableEq

/-- The body of the row loop (lines 48-59). -/
def step (header : List String) (a : Acc) (row : Row) : Except String Acc :=
  if runKey row = "" then
    .ok { a with total := a.total + 1, skipped_no_run := a.skipped_no_run + 1 }
  else if runKey row ∈ a.seen then
    .ok { a with total := a.total + 1 }
  else
    match dictWriterRow header row with
    | .error e => .error e
    | .ok cells =>
      .ok { a with total := a.total + 1, seen := a.seen ++ [runKey row],
                   out := a.out ++ [cells], wrote := a.wrote + 1 }

/-- The row loop over one file. -/
def goRows (header : List String) : List Row → Acc → Except String Acc
  | [], a => .ok a
  | r :: rs, a =>
    match step header a r with
    | .error e => .error e
    | .ok a2 => goRows header rs a2

/-- The file loop once the writer exists (header fixed by the first file
with fieldnames); files without fieldnames are skipped. -/
def goFiles (header : List String) : List SbFile → Acc → Except String Acc
  | [], a => .ok a
  | f :: fs, a =>
    if f.header = [] then goFiles header fs a
    else
      match goRows header f.rows a with
      | .error e => .error e
      | .ok a2 => goFiles header fs a2

/-- The file loop before the writer exists: the first file with fieldnames
fixes the output header and must contain the `Run` column. -/
def start : List SbFile → Except String (List String × Acc)
  | [] => .ok ([], ⟨[], [], 0, 0, 0⟩)
  | f :: fs =>
    if f.header = [] then start fs
    else if "Run" ∉ f.header then .error "Run column not found"
    else
      match goRows f.header f.rows ⟨[], [], 0, 0, 0⟩ with
      | .error e => .error e
      | .ok a =>
        match goFiles f.header fs a with
        | .error e => .error e
        | .ok a2 => .ok (f.header, a2)

/-- Model of `sra_merge_bioproject.py main()` on parsed input files in
sorted path order; the result carries the canonical header and the final
state. -/
def main (files : List SbFile) : Except String (List String × Acc) :=
  if files = [] then .error "no runinfo csv files found"
  else start files

/-- The rows of all processed files (those with a header) in processing
order. -/
def allRows (files : List SbFile) : List Row :=
  (files.filter (fun f => f.header != [])).flatMap SbFile.rows

theorem goRows_spec (header : List String) :
    ∀ (rows : List Row) (a a2 : Acc),
      goRows header rows a = .ok a2 →
        a2.seen = a.seen ++ (dedupKeep runKey rows a.seen).map runKey
      ∧ a2.out = a.out ++ (dedupKeep runKey rows a.seen).map (projRow header) := by
  intro rows
  induction rows with
  | nil =>
    intro a a2 h
    rw [goRows] at h
    injection h with h
    subst h
    simp [dedupKeep]
  | cons r rs ih =>
    intro a a2 h
    rw [goRows] at h
    by_cases h0 : runKey r = ""
    · have hstep : step header a r
          = .ok { a with total := a.total + 1,
                         skipped_no_run := a.skipped_no_run + 1 } := by
        simp [step, h0]
      rw [hstep] at h
      have := ih _ a2 h
      rw [dedupKeep, if_pos h0]
      exact this
    · by_cases h1 : runKey r ∈ a.seen
      · have hstep : step header a r = .ok { a with total := a.total + 1 } := by
          simp [step, h0, h1]
        rw [hstep] at h
        have := ih _ a2 h
        rw [dedupKeep, if_neg h0, if_pos h1]
        exact this
      · rw [dedupKeep, if_neg h0, if_neg h1]
        rcases hw : dictWriterRow header r with e | cells
        · have hstep : step header a r = .error e := by
            simp [step, h0, h1, hw]
          rw [hstep] at h
          exact absurd h (by simp)
        · have hstep : step header a r
              = .ok { a with total := a.total + 1, seen := a.seen ++ [runKey r],
                             out := a.out ++ [cells], wrote := a.wrote + 1 } := by
            simp [step, h0, h1, hw]
          rw [hstep] at h
          have := ih _ a2 h
          have hcells : cells = projRow header r := by
            rw [dictWriterRow] at hw
            by_cases hall : r.all (fun kv => header.contains kv.1)
            · rw [if_pos hall] at hw
              injection hw with hw
              exact hw.symm
            · rw [if_neg hall] at hw
              exact absurd hw (by simp)
          refine ⟨?_, ?_⟩
          · rw [this.1]
            simp [List.append_assoc]
          · rw [this.2, hcells]
            simp [List.append_assoc]

theorem goFiles_spec (header : List String) :
    ∀ (fs : List SbFile) (a a2 : Acc),
      goFiles header fs a = .ok a2 →
        a2.seen = a.seen ++ (dedupKeep runKey (allRows fs) a.seen).map runKey
      ∧ a2.out = a.out ++ (dedupKeep runKey (allRows fs) a.seen).map (projRow header) := by
  intro fs
  induction fs with
  | nil =>
    intro a a2 h
    rw [goFiles] at h
    injection h with h
    subst h
    simp [allRows, dedupKeep]
  | cons f fs ih =>
    intro a a2 h
    rw [goFiles] at h
    by_cases h0 : f.header = []
    · rw [if_pos h0] at h
      have hall : allRows (f :: fs) = allRows fs := by
        simp [allRows, List.filter_cons, h0]
      rw [hall]
      exact ih a a2 h
    · rw [if_neg h0] at h
      have hb : (f.header != []) = true := bne_iff_ne.mpr h0
      have hall : allRows (f :: fs) = f.rows ++ allRows fs := by
        simp [allRows, List.filter_cons, hb]
      rcases hr : goRows header f.rows a with e | a1
      · rw [hr] at h
        exact absurd h (by simp)
      · rw [hr] at h
        have hrs := goRows_spec header f.rows a a1 hr
        have hfs := ih a1 a2 h
        rw [hall, dedupKeep_append]
        refine ⟨?_, ?_⟩
        · rw [hfs.1, hrs.1]
          simp [List.append_assoc]
        · rw [hfs.2, hrs.2, hrs.1]
          simp [List.append_assoc]

theorem start_spec :
    ∀ (files : List SbFile) (header : List String) (a2 : Acc),
      start files = .ok (header, a2) →
        a2.out = (dedupKeep runKey (allRows files) []).map (projRow header) := by
  intro files
  induction files with
  | nil =>
    intro header a2 h
    rw [start] at h
    injection h with h
    injection h with h1 h2
    subst h1
    subst h2
    simp [allRows, dedupKeep]
  | cons f fs ih =>
    intro header a2 h
    rw [start] at h
    by_cases h0 : f.header = []
    · rw [if_pos h0] at h
      have hall : allRows (f :: fs) = allRows fs := by
        simp [allRows, List.filter_cons, h0]
      rw [hall]
      exact ih header a2 h
    · rw [if_neg h0] at h
      by_cases h1 : "Run" ∉ f.header
      · rw [if_pos h1] at h
        exact absurd h (by simp)
      · rw [if_neg h1] at h
        have hb : (f.header != []) = true := bne_iff_ne.mpr h0
        have hall : allRows (f :: fs) = f.rows ++ allRows fs := by
          simp [allRows, List.filter_cons, hb]
        rcases hr : goRows f.header f.rows ⟨[], [], 0, 0, 0⟩ with e | a1
        · rw [hr] at h
          exact absurd h (by simp)
        · rw [hr] at h
          have h2 : (match goFiles f.header fs a1 with
              | Except.error e => Except.error e
              | Except.ok a3 => Except.ok (f.header, a3)) = Except.ok (header, a2) := h
          rcases hg : goFiles f.header fs a1 with e | a3
          · rw [hg] at h2
            exact absurd h2 (by simp)
          · rw [hg] at h2
            injection h2 with h2
            injection h2 with hh ha
            subst hh
            subst ha
            have hrs := goRows_spec f.header f.rows ⟨[], [], 0, 0, 0⟩ a1 hr
            have hfs := goFiles_spec f.header fs a1 a3 hg
            rw [hall, dedupKeep_append]
            rw [hfs.2, hrs.2, hrs.1]
            simp [List.append_assoc]

theorem sbMain_spec (files : List SbFile) (header : List String) (a2 : Acc)
    (h : main files = .ok (header, a2)) :
    a2.out = (dedupKeep runKey (allRows files) []).map (projRow header) := by
  rw [main] at h
  by_cases h0 : files = []
  · rw [if_pos h0] at h
    simp at h
  · rw [if_neg h0] at h
    exact start_spec files header a2 h

end SraMergeBioproject

/-! ## Support lemmas for the claim theorems -/

theorem is_wgs_only_iff (strategy : String) :
    EnaSlim.is_wgs_only strategy = true ↔
      ((EnaSlim.norm strategy = "wgs"
        ∨ pyStartsWith (EnaSlim.norm strategy) "wgs" = true)
       ∧ ∀ t ∈ EnaSlim.EXCLUDE_STRATEGY_TERMS,
           containsStr (EnaSlim.norm strategy) t = false) := by
  rw [EnaSlim.is_wgs_only]
  by_cases h0 : EnaSlim.norm strategy = ""
  · rw [if_pos h0]
    simp only [h0]
    constructor
    · intro h
      exact absurd h (by decide)
    · rintro ⟨h1 | h1, _⟩
      · exact absurd h1 (by decide)
      · exact absurd h1 (by decide)
  · rw [if_neg h0]
    by_cases h1 : EnaSlim.EXCLUDE_STRATEGY_TERMS.any
        (fun t => containsStr (EnaSlim.norm strategy) t)
    · rw [if_pos h1]
      rcases List.any_eq_true.mp h1 with ⟨t, ht, hc⟩
      constructor
      · intro h
        exact absurd h (by decide)
      · rintro ⟨_, hall⟩
        rw [hall t ht] at hc
        exact absurd hc (by decide)
    · rw [if_neg h1]
      have hall : ∀ t ∈ EnaSlim.EXCLUDE_STRATEGY_TERMS,
          containsStr (EnaSlim.norm strategy) t = false := by
        intro t ht
        by_contra hc
        exact h1 (List.any_eq_true.mpr ⟨t, ht, by
          cases hcv : containsStr (EnaSlim.norm strategy) t
          · exact absurd hcv hc
          · rfl⟩)
      constructor
      · intro h
        rcases Bool.or_eq_true_iff.mp h with h | h
        · exact ⟨Or.inl (eq_of_beq h), hall⟩
        · exact ⟨Or.inr h, hall⟩
      · rintro ⟨h1 | h1, _⟩
        · exact Bool.or_eq_true_iff.mpr (Or.inl (beq_iff_eq.mpr h1))
        · exact Bool.or_eq_true_iff.mpr (Or.inr h1)

theorem mem_obsAll {dk k q : String} {files : List EnaMerge.EnaFile} :
    (k, q) ∈ EnaMerge.obsAll dk files ↔
      k ≠ "" ∧ ∃ f ∈ files, f.header ≠ [] ∧ f.query_id = q
        ∧ ∃ r ∈ f.rows, rkey dk r = k := by
  rw [EnaMerge.obsAll]
  rw [List.mem_flatMap]
  constructor
  · rintro ⟨f, hf, hp⟩
    rcases List.mem_filter.mp hf with ⟨hf1, hf2⟩
    rcases List.mem_filterMap.mp hp with ⟨r, hr, hsome⟩
    by_cases h0 : rkey dk r = ""
    · rw [if_pos h0] at hsome
      exact absurd hsome (by simp)
    · rw [if_neg h0] at hsome
      injection hsome with h1
      rcases Prod.mk.injEq .. ▸ h1 with ⟨hk, hq⟩
      subst hk
      subst hq
      exact ⟨h0, f, hf1, bne_iff_ne.mp hf2, rfl, r, hr, rfl⟩
  · rintro ⟨hk, f, hf, hh, hq, r, hr, hkey⟩
    refine ⟨f, List.mem_filter.mpr ⟨hf, bne_iff_ne.mpr hh⟩, ?_⟩
    apply List.mem_filterMap.mpr
    refine ⟨r, hr, ?_⟩
    rw [if_neg (hkey ▸ hk)]
    rw [hkey, hq]

theorem mem_fst_obsAll {dk k : String} {files : List EnaMerge.EnaFile} :
    k ∈ (EnaMerge.obsAll dk files).map Prod.fst ↔
      k ≠ "" ∧ ∃ f ∈ files, f.header ≠ [] ∧ ∃ r ∈ f.rows, rkey dk r = k := by
  constructor
  · intro h
    rcases List.mem_map.mp h with ⟨p, hp, hfst⟩
    obtain ⟨pk, pq⟩ := p
    subst hfst
    rcases mem_obsAll.mp hp with ⟨hk, f, hf, hh, _, r, hr, hkey⟩
    exact ⟨hk, f, hf, hh, r, hr, hkey⟩
  · rintro ⟨hk, f, hf, hh, r, hr, hkey⟩
    exact List.mem_map.mpr ⟨(k, f.query_id),
      mem_obsAll.mpr ⟨hk, f, hf, hh, rfl, r, hr, hkey⟩, rfl⟩


theorem contains_eq_decide_mem {α : Type} [BEq α] [LawfulBEq α]
    (l : List α) (a : α) : l.contains a = decide (a ∈ l) :=
  List.elem_eq_mem a l

theorem dedupKeep_of_nodup {α : Type} (key : α → String) :
    ∀ (rows : List α) (seen : List String),
      (∀ r ∈ rows, key r ≠ "") → ((rows.map key).Nodup) →
      dedupKeep key rows seen
        = rows.filter (fun r => !(seen.contains (key r))) := by
  intro rows
  induction rows with
  | nil => intro seen _ _; simp [dedupKeep]
  | cons r rs ih =>
    intro seen hne hnd
    have h0 : key r ≠ "" := hne r (List.mem_cons_self _ _)
    rcases List.nodup_cons.mp (List.map_cons key r rs ▸ hnd) with ⟨hrk, hnd2⟩
    have hne2 : ∀ x ∈ rs, key x ≠ "" := fun x hx => hne x (List.mem_cons_of_mem _ hx)
    rw [dedupKeep, if_neg h0, List.filter_cons]
    by_cases h1 : key r ∈ seen
    · rw [if_pos h1]
      have hc : (seen.contains (key r)) = true := by
        rw [contains_eq_decide_mem]
        exact decide_eq_true h1
      rw [hc]
      simp only [Bool.not_true, if_false]
      exact ih seen hne2 hnd2
    · rw [if_neg h1]
      have hc : (seen.contains (key r)) = false := by
        rw [contains_eq_decide_mem]
        exact decide_eq_false h1
      rw [hc]
      simp only [Bool.not_false, if_true]
      rw [ih (seen ++ [key r]) hne2 hnd2]
      refine congrArg _ (List.filter_congr ?_)
      intro x hx
      have hxk : key x ≠ key r := by
        intro e
        exact hrk (e ▸ List.mem_map_of_mem key hx)
      rw [contains_eq_decide_mem, contains_eq_decide_mem]
      have : (key x ∈ seen ++ [key r]) ↔ key x ∈ seen := by
        simp [List.mem_append, hxk]
      simp [this]

theorem dupCount_of_nodup {α : Type} (key : α → String) :
    ∀ (rows : List α) (seen : List String),
      (∀ r ∈ rows, key r ≠ "") → ((rows.map key).Nodup) →
      dupCount key rows seen
        = rows.countP (fun r => seen.contains (key r)) := by
  intro rows
  induction rows with
  | nil => intro seen _ _; simp [dupCount]
  | cons r rs ih =>
    intro seen hne hnd
    have h0 : key r ≠ "" := hne r (List.mem_cons_self _ _)
    rcases List.nodup_cons.mp (List.map_cons key r rs ▸ hnd) with ⟨hrk, hnd2⟩
    have hne2 : ∀ x ∈ rs, key x ≠ "" := fun x hx => hne x (List.mem_cons_of_mem _ hx)
    rw [dupCount, if_neg h0, List.countP_cons]
    by_cases h1 : key r ∈ seen
    · rw [if_pos h1]
      have hc : (seen.contains (key r)) = true := by
        rw [contains_eq_decide_mem]
        exact decide_eq_true h1
      rw [hc, ih seen hne2 hnd2]
      simp
      omega
    · rw [if_neg h1]
      have hc : (seen.contains (key r)) = false := by
        rw [contains_eq_decide_mem]
        exact decide_eq_false h1
      rw [hc, ih (seen ++ [key r]) hne2 hnd2]
      have heq : rs.countP (fun x => (seen ++ [key r]).contains (key x))
          = rs.countP (fun x => seen.contains (key x)) := by
        apply List.countP_congr
        intro x hx
        have hxk : key x ≠ key r := by
          intro e
          exact hrk (e ▸ List.mem_map_of_mem key hx)
        rw [contains_eq_decide_mem, contains_eq_decide_mem]
        have : (key x ∈ seen ++ [key r]) ↔ key x ∈ seen := by
          simp [List.mem_append, hxk]
        simp [this]
      rw [heq]
      simp

theorem rget_sraOutRow_run (r : Row) :
    rget (MergeSraEna.sraOutRow r) "run_accession" = MergeSraEna.sraKey r := rfl

theorem rget_enaOutRow_run (r : Row) :
    rget (MergeSraEna.enaOutRow r) "run_accession" = MergeSraEna.enaKey r := rfl

theorem rget_smk_run (x : Row ⊕ Row) :
    rget (MergeSraEna.smk x) "run_accession" = MergeSraEna.skey x := by
  cases x with
  | inl r => exact rget_sraOutRow_run r
  | inr r => exact rget_enaOutRow_run r

/-- C1: for every execution of the three dedup-by-key merge utilities — the
archive-A per-query merge (`ena_merge.py`), the cross-archive merge
(`merge_sra_ena.py`, archive-B rows processed before archive-A rows) and the
run-level merge (`sra_merge_bioproject.py`) — the merged output contains at
most one row per dedup key value, and the row kept for a key is (the
projection of) the first row bearing that key in the defined processing
order: input files in the given sorted-path order, rows within a file in
original order. -/
theorem C1_dedup_merges_first_wins :
    (∀ (dk : String) (files : List EnaMerge.EnaFile)
        (out : EnaMerge.MState × List EnaMerge.QueryStats),
      EnaMerge.main dk files = .ok out →
        (∀ k : String,
          out.1.merged.countP (fun qr => EnaMerge.tkey dk qr == k) ≤ 1)
        ∧ ∀ qr ∈ out.1.merged,
            (EnaMerge.taggedRows files).find?
              (fun x => EnaMerge.tkey dk x == EnaMerge.tkey dk qr) = some qr)
    ∧ (∀ (enaRows sraRows : List Row),
        (∀ k : String,
          (MergeSraEna.merge_files enaRows sraRows true).out.countP
            (fun r => rget r "run_accession" == k) ≤ 1)
        ∧ ∀ orow ∈ (MergeSraEna.merge_files enaRows sraRows true).out,
            ∃ x, (MergeSraEna.mergeInputs enaRows sraRows).find?
                (fun y => MergeSraEna.skey y == rget orow "run_accession") = some x
              ∧ orow = MergeSraEna.smk x)
    ∧ (∀ (files : List SraMergeBioproject.SbFile) (header : List String)
        (a : SraMergeBioproject.Acc),
      SraMergeBioproject.main files = .ok (header, a) →
        ∃ kept : List Row,
          a.out = kept.map (SraMergeBioproject.projRow header)
          ∧ (∀ k : String,
              kept.countP (fun r => SraMergeBioproject.runKey r == k) ≤ 1)
          ∧ ∀ r ∈ kept,
              (SraMergeBioproject.allRows files).find?
                (fun x => SraMergeBioproject.runKey x == SraMergeBioproject.runKey r)
                = some r) := by
  refine ⟨?_, ?_, ?_⟩
  · intro dk files out h
    have hm := (EnaMerge.main_spec dk files out h).2.1
    constructor
    · intro k
      rw [hm]
      exact dedupKeep_countP_le_one (EnaMerge.tkey dk) _ _ k
    · intro qr hqr
      rw [hm] at hqr
      exact dedupKeep_first (EnaMerge.tkey dk) _ _ qr hqr
  · intro enaRows sraRows
    have hout := MergeSraEna.merge_files_out_eq enaRows sraRows
    constructor
    · intro k
      rw [hout, List.countP_map]
      have : (dedupKeep MergeSraEna.skey
            (MergeSraEna.mergeInputs enaRows sraRows) []).countP
          ((fun r => rget r "run_accession" == k) ∘ MergeSraEna.smk)
        = (dedupKeep MergeSraEna.skey
            (MergeSraEna.mergeInputs enaRows sraRows) []).countP
          (fun x => MergeSraEna.skey x == k) := by
        apply List.countP_congr
        intro x _
        simp only [Function.comp_apply, rget_smk_run x]
      rw [this]
      exact dedupKeep_countP_le_one MergeSraEna.skey _ _ k
    · intro orow horow
      rw [hout] at horow
      rcases List.mem_map.mp horow with ⟨x, hx, hsmk⟩
      refine ⟨x, ?_, hsmk.symm⟩
      have hfind := dedupKeep_first MergeSraEna.skey _ _ x hx
      have : rget orow "run_accession" = MergeSraEna.skey x := by
        rw [← hsmk]
        exact rget_smk_run x
      rw [this]
      exact hfind
  · intro files header a h
    have hm := SraMergeBioproject.sbMain_spec files header a h
    refine ⟨dedupKeep SraMergeBioproject.runKey
      (SraMergeBioproject.allRows files) [], hm, ?_, ?_⟩
    · intro k
      exact dedupKeep_countP_le_one SraMergeBioproject.runKey _ _ k
    · intro r hr
      exact dedupKeep_first SraMergeBioproject.runKey _ _ r hr

/-- C7: after a successful run of the per-query merge with dedup
(`ena_merge.py`) the per-query `written_rows` entries sum to the number of
data rows in the merged output, and after a successful run of the
no-filtering variant (`ena_merge_dedup_barebones.py`) the per-query
input-row counts (`run_lines`) sum to the number of merged data rows. -/
theorem C7_summary_totals :
    (∀ (dk : String) (files : List EnaMerge.EnaFile)
        (out : EnaMerge.MState × List EnaMerge.QueryStats),
      EnaMerge.main dk files = .ok out →
        (out.2.map EnaMerge.QueryStats.written_rows).sum = out.1.merged.length)
    ∧ (∀ (dk : String) (files : List EnaMerge.EnaFile)
        (out : EnaMergeBarebones.BState × List EnaMergeBarebones.QueryStats),
      EnaMergeBarebones.main dk files = .ok out →
        (out.2.map EnaMergeBarebones.QueryStats.run_lines).sum
          = out.1.merged.length) := by
  constructor
  · intro dk files out h
    have hm := EnaMerge.main_spec dk files out h
    rw [hm.2.2.2.2, hm.2.1]
  · intro dk files out h
    have hm := EnaMergeBarebones.ebMain_spec dk files out h
    rw [hm.2, hm.1]

/-- C8: determinism.  Every utility is modelled as a pure function of its
parsed inputs, so two runs on byte-identical inputs compute identical
outputs; the only internal nondeterminism in the Python sources is the
iteration order of the hash-based `set`/`dict` containers, which reaches an
output file solely through the sorted dedup-key listing.  This theorem shows
that listing is invariant under every permutation of the container
representation: permuting the key set and each per-key query set leaves
`dedupRunsRows` unchanged, and the comma-joined sorted query list is
permutation-invariant. -/
theorem C8_deterministic_outputs :
    (∀ kq kq' : List (String × List String),
      (kq.map Prod.fst).Perm (kq'.map Prod.fst) →
      (∀ k, (valueAt kq k).Perm (valueAt kq' k)) →
      dedupRunsRows kq = dedupRunsRows kq')
    ∧ (∀ qs qs' : List String, qs.Perm qs' →
        joinComma (sortStrs qs) = joinComma (sortStrs qs')) := by
  constructor
  · intro kq kq' hkeys hvals
    rw [dedupRunsRows, dedupRunsRows, sortStrs_congr hkeys]
    apply List.map_congr_left
    intro k _
    rw [sortStrs_congr (hvals k)]
  · intro qs qs' h
    rw [sortStrs_congr h]

/-- C6: in the archive-A per-query merge, every input row whose dedup key is
empty after trimming is excluded both from the merged output and from the
dedup-key listing, yet the row still counts toward its file's
`input_rows` total in the per-query summary. -/
theorem C6_empty_key_rows (dk : String) (files : List EnaMerge.EnaFile)
    (out : EnaMerge.MState × List EnaMerge.QueryStats)
    (h : EnaMerge.main dk files = .ok out) :
    (∀ qr ∈ out.1.merged, EnaMerge.tkey dk qr ≠ "")
    ∧ (∀ p ∈ dedupRunsRows out.1.kq, p.1 ≠ "")
    ∧ out.2.map (fun s => (s.query_id, s.input_rows))
        = (files.filter (fun f => f.header != [])).map
            (fun f => (f.query_id, f.rows.length)) := by
  have hm := EnaMerge.main_spec dk files out h
  refine ⟨?_, ?_, hm.2.2.2.1⟩
  · intro qr hqr
    rw [hm.2.1] at hqr
    exact dedupKeep_key_ne_empty (EnaMerge.tkey dk) _ _ qr hqr
  · intro p hp
    rcases List.mem_map.mp hp with ⟨k, hk, hpk⟩
    have hk2 : k ∈ out.1.kq.map Prod.fst := mem_sortStrs.mp hk
    rw [hm.2.2.1] at hk2
    rcases (mem_keys_kqFold _ _).mp hk2 with h' | h'
    · simp at h'
    · have := mem_fst_obsAll.mp h'
      rw [← hpk]
      exact this.1

/-- C5: after a successful run of the archive-A per-query merge, the
dedup-key listing has exactly one line per distinct non-empty trimmed key
observed in any processed input row, in sorted order, and each line carries
the comma-joined sorted set of all query identifiers that produced a row
bearing that key — including queries whose rows were suppressed by the
row-level deduplication. -/
theorem C5_key_index_superset (dk : String) (files : List EnaMerge.EnaFile)
    (out : EnaMerge.MState × List EnaMerge.QueryStats)
    (h : EnaMerge.main dk files = .ok out) :
    ((dedupRunsRows out.1.kq).map Prod.fst).Pairwise (fun a b => strLe a b = true)
    ∧ ((dedupRunsRows out.1.kq).map Prod.fst).Nodup
    ∧ (∀ k : String, k ∈ (dedupRunsRows out.1.kq).map Prod.fst ↔
        (k ≠ "" ∧ ∃ f ∈ files, f.header ≠ [] ∧ ∃ r ∈ f.rows, rkey dk r = k))
    ∧ (∀ p ∈ dedupRunsRows out.1.kq, ∃ qs : List String,
        p.2 = joinComma qs
        ∧ qs.Pairwise (fun a b => strLe a b = true)
        ∧ qs.Nodup
        ∧ (∀ q : String, q ∈ qs ↔
            ∃ f ∈ files, f.header ≠ [] ∧ f.query_id = q
              ∧ ∃ r ∈ f.rows, rkey dk r = p.1)) := by
  have hm := EnaMerge.main_spec dk files out h
  have hfst : (dedupRunsRows out.1.kq).map Prod.fst
      = sortStrs (out.1.kq.map Prod.fst) := by
    rw [dedupRunsRows, List.map_map]
    have : (Prod.fst ∘ fun k => (k, joinComma (sortStrs (valueAt out.1.kq k))))
        = id := rfl
    rw [this, List.map_id]
  have hnodupkeys : (out.1.kq.map Prod.fst).Nodup := by
    rw [hm.2.2.1]
    exact nodup_keys_kqFold _ _ (by simp)
  refine ⟨?_, ?_, ?_, ?_⟩
  · rw [hfst]
    exact sortStrs_sorted _
  · rw [hfst]
    exact nodup_sortStrs hnodupkeys
  · intro k
    rw [hfst, mem_sortStrs]
    constructor
    · intro hk
      rw [hm.2.2.1] at hk
      rcases (mem_keys_kqFold _ _).mp hk with h' | h'
      · simp at h'
      · exact mem_fst_obsAll.mp h'
    · intro hk
      rw [hm.2.2.1]
      exact (mem_keys_kqFold _ _).mpr (Or.inr (mem_fst_obsAll.mpr hk))
  · intro p hp
    rcases List.mem_map.mp hp with ⟨k, hk, hpk⟩
    have hksort : k ∈ out.1.kq.map Prod.fst := mem_sortStrs.mp hk
    have hkne : k ≠ "" := by
      rw [hm.2.2.1] at hksort
      rcases (mem_keys_kqFold _ _).mp hksort with h' | h'
      · simp at h'
      · exact (mem_fst_obsAll.mp h').1
    refine ⟨sortStrs (valueAt out.1.kq k), ?_, sortStrs_sorted _, ?_, ?_⟩
    · rw [← hpk]
    · apply nodup_sortStrs
      rw [hm.2.2.1]
      exact nodup_valueAt_kqFold _ _ (by intro k'; simp [valueAt])
    · intro q
      rw [mem_sortStrs]
      have hp1 : p.1 = k := by rw [← hpk]
      rw [hp1, hm.2.2.1, mem_valueAt_kqFold]
      constructor
      · rintro (h' | h')
        · simp [valueAt] at h'
        · rcases mem_obsAll.mp h' with ⟨_, f, hf, hh, hq, r, hr, hkey⟩
          exact ⟨f, hf, hh, hq, r, hr, hkey⟩
      · rintro ⟨f, hf, hh, hq, r, hr, hkey⟩
        exact Or.inr (mem_obsAll.mpr ⟨hkne, f, hf, hh, hq, r, hr, hkey⟩)

/-- C2: a row passes the extended archive-A filter (`ena_slim.py`) exactly
when it satisfies every inclusion predicate — identifiers present, parsed
read count at least 100000, strategy equal to or starting with `wgs`
(case-insensitively) with no deny-listed substring, and the three
case-insensitive equality criteria — the output being the trimmed
projection of exactly the kept rows; in particular a row with
`library_strategy=AMPLICON-WGS` is never emitted. -/
theorem C2_ena_slim_filter :
    (∀ rows : List Row, (EnaSlim.run rows).1
        = (rows.filter (fun r => EnaSlim.isKeep (EnaSlim.classify r))).map
            EnaSlim.outRow)
    ∧ (∀ row : Row, EnaSlim.isKeep (EnaSlim.classify row) = true ↔
        (pyStrip (rget row "study_accession") ≠ ""
         ∧ pyStrip (rget row "run_accession") ≠ ""
         ∧ (100000 : Int) ≤ parse_int (rget row "read_count")
         ∧ (EnaSlim.norm (pyStrip (rget row "library_strategy")) = "wgs"
            ∨ pyStartsWith (EnaSlim.norm (pyStrip (rget row "library_strategy")))
                "wgs" = true)
         ∧ (∀ t ∈ EnaSlim.EXCLUDE_STRATEGY_TERMS,
              containsStr (EnaSlim.norm (pyStrip (rget row "library_strategy")))
                t = false)
         ∧ EnaSlim.norm (pyStrip (rget row "library_selection")) = "random"
         ∧ EnaSlim.norm (pyStrip (rget row "library_source")) = "metagenomic"
         ∧ EnaSlim.norm (pyStrip (rget row "scientific_name")) = "homo sapiens"))
    ∧ (∀ row : Row, rget row "library_strategy" = "AMPLICON-WGS" →
        EnaSlim.isKeep (EnaSlim.classify row) = false) := by
  have hiff : ∀ row : Row, EnaSlim.isKeep (EnaSlim.classify row) = true ↔
      (pyStrip (rget row "study_accession") ≠ ""
       ∧ pyStrip (rget row "run_accession") ≠ ""
       ∧ (100000 : Int) ≤ parse_int (rget row "read_count")
       ∧ (EnaSlim.norm (pyStrip (rget row "library_strategy")) = "wgs"
          ∨ pyStartsWith (EnaSlim.norm (pyStrip (rget row "library_strategy")))
              "wgs" = true)
       ∧ (∀ t ∈ EnaSlim.EXCLUDE_STRATEGY_TERMS,
            containsStr (EnaSlim.norm (pyStrip (rget row "library_strategy")))
              t = false)
       ∧ EnaSlim.norm (pyStrip (rget row "library_selection")) = "random"
       ∧ EnaSlim.norm (pyStrip (rget row "library_source")) = "metagenomic"
       ∧ EnaSlim.norm (pyStrip (rget row "scientific_name")) = "homo sapiens") := by
    intro row
    have hsel : EnaSlim.norm EnaSlim.KEEP_LIBRARY_SELECTION = "random" := by decide
    have hsrc : EnaSlim.norm EnaSlim.KEEP_LIBRARY_SOURCE = "metagenomic" := by decide
    have hsci : EnaSlim.norm EnaSlim.KEEP_SCIENTIFIC_NAME = "homo sapiens" := by decide
    have hmin : ((EnaSlim.MIN_READS : Nat) : Int) = 100000 := by decide
    rw [EnaSlim.classify, hsel, hsrc, hsci, hmin]
    by_cases h1 : pyStrip (rget row "study_accession") = ""
        ∨ pyStrip (rget row "run_accession") = ""
    · rw [if_pos h1]
      constructor
      · intro h
        exact absurd h (by decide)
      · rintro ⟨ha, hb, -⟩
        rcases h1 with h1 | h1
        · exact absurd h1 ha
        · exact absurd h1 hb
    · rw [if_neg h1]
      push_neg at h1
      by_cases h2 : parse_int (rget row "read_count") < (100000 : Int)
      · rw [if_pos h2]
        constructor
        · intro h
          exact absurd h (by decide)
        · rintro ⟨-, -, hc, -⟩
          exact absurd h2 (not_lt.mpr hc)
      · rw [if_neg h2]
        by_cases h3 : EnaSlim.is_wgs_only (pyStrip (rget row "library_strategy")) = true
        · rw [if_neg (not_not.mpr h3)]
          by_cases h4 : EnaSlim.norm (pyStrip (rget row "library_selection")) = "random"
          · rw [if_neg (not_not.mpr h4)]
            by_cases h5 : EnaSlim.norm (pyStrip (rget row "library_source")) = "metagenomic"
            · rw [if_neg (not_not.mpr h5)]
              by_cases h6 : EnaSlim.norm (pyStrip (rget row "scientific_name")) = "homo sapiens"
              · rw [if_neg (not_not.mpr h6)]
                constructor
                · intro _
                  rcases (is_wgs_only_iff _).mp h3 with ⟨hd, he⟩
                  exact ⟨h1.1, h1.2, not_lt.mp h2, hd, he, h4, h5, h6⟩
                · intro _
                  rfl
              · rw [if_pos h6]
                constructor
                · intro h
                  exact absurd h (by decide)
                · rintro ⟨-, -, -, -, -, -, -, hh⟩
                  exact absurd hh h6
            · rw [if_pos h5]
              constructor
              · intro h
                exact absurd h (by decide)
              · rintro ⟨-, -, -, -, -, -, hg, -⟩
                exact absurd hg h5
          · rw [if_pos h4]
            constructor
            · intro h
              exact absurd h (by decide)
            · rintro ⟨-, -, -, -, -, hf, -⟩
              exact absurd hf h4
        · rw [if_pos h3]
          constructor
          · intro h
            exact absurd h (by decide)
          · rintro ⟨-, -, -, hd, he, -⟩
            exact absurd ((is_wgs_only_iff _).mpr ⟨hd, he⟩) h3
  refine ⟨EnaSlim.run_out, hiff, ?_⟩
  intro row hrow
  cases hb : EnaSlim.isKeep (EnaSlim.classify row) with
  | false => rfl
  | true =>
    exfalso
    have h := (hiff row).mp hb
    have hs : EnaSlim.norm (pyStrip (rget row "library_strategy"))
        = "amplicon-wgs" := by
      rw [hrow]
      decide
    have hcon := h.2.2.2.2.1 "amplicon" (by decide)
    rw [hs] at hcon
    exact absurd hcon (by decide)

/-- C10: the two layout normalisations disagree on unknown values — the
archive-B filter (`sra_slim.py`) writes `SeqType` `single` for every
`LibraryLayout` other than `PAIRED` (after trimming and upper-casing),
including blank values, whereas the cross-archive merge
(`merge_sra_ena.py`) maps any layout other than `PAIRED` or `SINGLE` to the
empty string in `seq_type`. -/
theorem C10_layout_disagreement :
    (∀ row : Row, pyUpper (pyStrip (rget row "LibraryLayout")) ≠ "PAIRED" →
        rget (SraSlim.outRow row) "SeqType" = "single")
    ∧ (∀ row : Row, pyUpper (pyStrip (rget row "LibraryLayout")) = "PAIRED" →
        rget (SraSlim.outRow row) "SeqType" = "paired")
    ∧ (∀ s : String, pyUpper (pyStrip s) ≠ "PAIRED" →
        pyUpper (pyStrip s) ≠ "SINGLE" →
        MergeSraEna.infer_seq_type_from_layout s = "")
    ∧ (∀ row : Row, rget (MergeSraEna.enaOutRow row) "seq_type"
        = MergeSraEna.infer_seq_type_from_layout
            (MergeSraEna.norm (rget row "library_layout"))) := by
  refine ⟨?_, ?_, ?_, ?_⟩
  · intro row h
    have hr : rget (SraSlim.outRow row) "SeqType"
        = (if pyUpper (pyStrip (rget row "LibraryLayout")) = "PAIRED"
           then "paired" else "single") := rfl
    rw [hr, if_neg h]
  · intro row h
    have hr : rget (SraSlim.outRow row) "SeqType"
        = (if pyUpper (pyStrip (rget row "LibraryLayout")) = "PAIRED"
           then "paired" else "single") := rfl
    rw [hr, if_pos h]
  · intro s h1 h2
    rw [MergeSraEna.infer_seq_type_from_layout]
    rw [if_neg h1, if_neg h2]
  · intro row
    rfl

/-- The first runinfo file of the C3 failing input: two columns, one row. -/
def C3file1 : SraMergeBioproject.SbFile :=
  ⟨["Run", "BioProject"], [[("Run", "R1"), ("BioProject", "P1")]]⟩

/-- The second runinfo file of the C3 failing input: it carries an extra
column `Extra` not present in the first file's header. -/
def C3file2 : SraMergeBioproject.SbFile :=
  ⟨["Run", "BioProject", "Extra"],
   [[("Run", "R2"), ("BioProject", "P2"), ("Extra", "x")]]⟩

/-- C3 evaluation: the run-level merge aborts with the `csv.DictWriter`
`ValueError` (default `extrasaction='raise'`) when a later file carries an
extra column, instead of dropping the column as the script's own
documentation promises; the run with the extra column removed succeeds. -/
theorem C3_extra_columns_raise :
    SraMergeBioproject.main [C3file1, C3file2]
      = .error "dict contains fields not in fieldnames"
    ∧ (∃ c ∈ C3file2.header, c ∉ C3file1.header)
    ∧ (SraMergeBioproject.main
        [C3file1, ⟨["Run", "BioProject"], [[("Run", "R2"), ("BioProject", "P2")]]⟩]).isOk
      = true := by
  refine ⟨by rfl, ⟨"Extra", by decide, by decide⟩, by rfl⟩

/-- An archive-B input whose rows all carry a non-empty run identifier but
repeat one run within the same file. -/
def C4dupSra : List Row :=
  [[("Run", "ERR1")], [("Run", "ERR1")]]

/-- C4 counterexample: with an empty archive-A input the two run-identifier
sets are disjoint, every row has a non-empty run identifier, yet the output
row count of the cross-archive merge is strictly below the sum of the two
input row counts, because the seen-set also deduplicates repeats inside a
single input. -/
theorem C4_counterexample :
    C4dupSra.all (fun r => MergeSraEna.sraKey r != "") = true
    ∧ (C4dupSra.map MergeSraEna.sraKey).inter
        (([] : List Row).map MergeSraEna.enaKey) = []
    ∧ (MergeSraEna.merge_files [] C4dupSra true).written
        ≠ ([] : List Row).length + C4dupSra.length := by
  refine ⟨by decide, by decide, by decide⟩

/-- C4 (amended): for inputs whose rows all carry a non-empty run identifier
and whose run identifiers are pairwise distinct within each input, disjoint
run-identifier sets make the cross-archive output row count the sum of the
two input counts with no drops, and exactly one run identifier shared
between the two inputs lowers the output count by exactly one and raises
the duplicate-drop counter to exactly one. -/
theorem C4_merge_counts (enaRows sraRows : List Row)
    (hsne : ∀ r ∈ sraRows, MergeSraEna.sraKey r ≠ "")
    (hene : ∀ r ∈ enaRows, MergeSraEna.enaKey r ≠ "")
    (hsnd : (sraRows.map MergeSraEna.sraKey).Nodup)
    (hend : (enaRows.map MergeSraEna.enaKey).Nodup) :
    ((∀ k ∈ sraRows.map MergeSraEna.sraKey, k ∉ enaRows.map MergeSraEna.enaKey) →
      (MergeSraEna.merge_files enaRows sraRows true).written
        = sraRows.length + enaRows.length
      ∧ (MergeSraEna.merge_files enaRows sraRows true).dropped = 0)
    ∧ (∀ k0 : String,
        (enaRows.map MergeSraEna.enaKey).filter
          (fun k => (sraRows.map MergeSraEna.sraKey).contains k) = [k0] →
      (MergeSraEna.merge_files enaRows sraRows true).written
        = sraRows.length + enaRows.length - 1
      ∧ (MergeSraEna.merge_files enaRows sraRows true).dropped = 1) := by
  have hs0 := MergeSraEna.rowStep_fold_spec MergeSraEna.sraKey MergeSraEna.sraOutRow
    sraRows ⟨[], [], 0, 0⟩
  have hkeep_s : dedupKeep MergeSraEna.sraKey sraRows [] = sraRows := by
    rw [dedupKeep_of_nodup _ _ _ hsne hsnd]
    simp
  have hdup_s : dupCount MergeSraEna.sraKey sraRows ([] : List String) = 0 := by
    rw [dupCount_of_nodup _ _ _ hsne hsnd]
    simp
  set a1 := sraRows.foldl
    (MergeSraEna.rowStep true MergeSraEna.sraKey MergeSraEna.sraOutRow)
    ⟨[], [], 0, 0⟩ with ha1
  have hseen1 : a1.seen = sraRows.map MergeSraEna.sraKey := by
    rw [hs0.1, hkeep_s]
    simp
  have hwritten1 : a1.written = sraRows.length := by
    rw [hs0.2.2.1, hkeep_s]
    simp
  have hdropped1 : a1.dropped = 0 := by
    rw [hs0.2.2.2, hdup_s]
  have he0 := MergeSraEna.rowStep_fold_spec MergeSraEna.enaKey MergeSraEna.enaOutRow
    enaRows a1
  have hmf : MergeSraEna.merge_files enaRows sraRows true
      = enaRows.foldl (MergeSraEna.rowStep true MergeSraEna.enaKey
          MergeSraEna.enaOutRow) a1 := rfl
  have hkeep_e : dedupKeep MergeSraEna.enaKey enaRows a1.seen
      = enaRows.filter (fun r => !(a1.seen.contains (MergeSraEna.enaKey r))) :=
    dedupKeep_of_nodup _ _ _ hene hend
  have hdup_e : dupCount MergeSraEna.enaKey enaRows a1.seen
      = enaRows.countP (fun r => a1.seen.contains (MergeSraEna.enaKey r)) :=
    dupCount_of_nodup _ _ _ hene hend
  have hpart := List.length_eq_length_filter_add
    (l := enaRows) (fun r => a1.seen.contains (MergeSraEna.enaKey r))
  constructor
  · intro hdisj
    have hcontains : ∀ r ∈ enaRows,
        (a1.seen.contains (MergeSraEna.enaKey r)) = false := by
      intro r hr
      rw [contains_eq_decide_mem]
      apply decide_eq_false
      intro hmem
      rw [hseen1] at hmem
      exact hdisj _ hmem (List.mem_map_of_mem _ hr)
    constructor
    · rw [hmf, he0.2.2.1, hwritten1, hkeep_e]
      have : enaRows.filter (fun r => !(a1.seen.contains (MergeSraEna.enaKey r)))
          = enaRows := by
        rw [List.filter_congr (by intro x hx; rw [hcontains x hx])]
        simp
      rw [this]
    · rw [hmf, he0.2.2.2, hdropped1, hdup_e]
      rw [List.countP_eq_zero.mpr (by intro r hr; rw [hcontains r hr]; simp)]
  · intro k0 hone
    have hfm : (enaRows.map MergeSraEna.enaKey).filter
          (fun k => (sraRows.map MergeSraEna.sraKey).contains k)
        = (enaRows.filter
            (fun r => a1.seen.contains (MergeSraEna.enaKey r))).map
              MergeSraEna.enaKey := by
      rw [List.filter_map]
      refine congrArg _ (List.filter_congr ?_)
      intro r _
      rw [Function.comp_apply, hseen1]
    have hc1 : (enaRows.filter
        (fun r => a1.seen.contains (MergeSraEna.enaKey r))).length = 1 := by
      have hlen := congrArg List.length hfm
      rw [hone, List.length_map] at hlen
      exact hlen.symm
    have hcount1 : enaRows.countP
        (fun r => a1.seen.contains (MergeSraEna.enaKey r)) = 1 := by
      rw [List.countP_eq_length_filter, hc1]
    constructor
    · rw [hmf, he0.2.2.1, hwritten1, hkeep_e]
      omega
    · rw [hmf, he0.2.2.2, hdropped1, hdup_e, hcount1]

/-- A runinfo row with a blank spots field and a blank run identifier. -/
def C9cexRow : Row :=
  [("Run", ""), ("BioProject", "P"), ("spots", "")]

/-- C9 counterexample: a row whose spots field is blank parses to 0 and is
rejected, but when the preceding identifier check already fails the row is
counted under the missing-run reason rather than the low-spots reason. -/
theorem C9_counterexample :
    parse_int (rget C9cexRow "spots") = 0
    ∧ (SraSlim.run [C9cexRow]).1 = []
    ∧ (SraSlim.run [C9cexRow]).2.skipped_low_spots = 0
    ∧ (SraSlim.run [C9cexRow]).2.skipped_missing_run = 1 := by
  refine ⟨by decide, by rfl, by rfl, by rfl⟩

/-- C9 (amended): a read-count/spots value that is blank, missing or fails
decimal parsing is treated as the integer 0, so such a row is always
rejected, and it is counted under the low-read-count (resp. low-spots)
skip reason whenever the preceding identifier-presence checks pass; numeric
strings are parsed as exact decimals and truncated toward zero before the
threshold comparison. -/
theorem C9_parse_zero_rejection :
    (∀ x : String, parseDec (pyStrip x) = none → parse_int x = 0)
    ∧ (∀ row : Row, List.lookup "read_count" row = none →
        parse_int (rget row "read_count") = 0)
    ∧ (∀ row : Row, pyStrip (rget row "study_accession") ≠ "" →
        pyStrip (rget row "run_accession") ≠ "" →
        parse_int (rget row "read_count") = 0 →
        EnaSlim.classify row = EnaSlim.RowFate.lowReads)
    ∧ (∀ row : Row, pyStrip (rget row "Run") ≠ "" →
        pyStrip (rget row "BioProject") ≠ "" →
        parse_int (rget row "spots") = 0 →
        SraSlim.classify row = SraSlim.RowFate.lowSpots)
    ∧ (∀ rows : List Row, (EnaSlim.run rows).2.skipped_low_reads
        = rows.countP (fun r => EnaSlim.isLowReads (EnaSlim.classify r)))
    ∧ (∀ rows : List Row, (SraSlim.run rows).2.skipped_low_spots
        = rows.countP (fun r => SraSlim.isLowSpots (SraSlim.classify r)))
    ∧ (∀ (x : String) (d : DecForm), parseDec (pyStrip x) = some d →
        parse_int x
          = (if d.neg then -(decTruncMag d : Int) else (decTruncMag d : Int))
        ∧ ((d.fracLen : Int) ≤ d.exp →
            decTruncMag d = d.mant * 10 ^ (d.exp - d.fracLen).toNat)
        ∧ (d.exp < (d.fracLen : Int) →
            decTruncMag d * 10 ^ ((d.fracLen : Int) - d.exp).toNat ≤ d.mant
            ∧ d.mant
              < (decTruncMag d + 1) * 10 ^ ((d.fracLen : Int) - d.exp).toNat)) := by
  refine ⟨?_, ?_, ?_, ?_, EnaSlim.run_low_reads, SraSlim.run_low_spots, ?_⟩
  · intro x h
    simp [parse_int, h]
  · intro row h
    rw [rget, h]
    decide
  · intro row h1 h2 h0
    rw [EnaSlim.classify, if_neg (by
      rintro (h | h)
      · exact h1 h
      · exact h2 h), if_pos (by rw [h0]; decide)]
  · intro row h1 h2 h0
    rw [SraSlim.classify, if_neg h1, if_neg h2, if_pos (by rw [h0]; decide)]
  · intro x d h
    refine ⟨by simp [parse_int, h, decTrunc], ?_, ?_⟩
    · intro hle
      rw [decTruncMag, if_pos hle]
    · intro hlt
      rw [decTruncMag, if_neg (not_le.mpr hlt)]
      constructor
      · exact Nat.div_mul_le_self _ _
      · exact (Nat.div_lt_iff_lt_mul
          (Nat.pow_pos (by norm_num))).mp (Nat.lt_succ_self _)

/-! ## Concrete witness inputs and witness theorems -/

/-- The shared header of the demo per-query files. -/
def demoHeader : List String := ["run_accession", "study_accession"]

/-- Demo per-query file `Q1.read_run.tsv`: one `ERR123` row and one row with
a blank run accession. -/
def demoQ1 : EnaMerge.EnaFile :=
  ⟨"Q1", demoHeader,
   [[("run_accession", "ERR123"), ("study_accession", "S1")],
    [("run_accession", ""), ("study_accession", "S2")]]⟩

/-- Demo per-query file `Q2.read_run.tsv`: a second `ERR123` row. -/
def demoQ2 : EnaMerge.EnaFile :=
  ⟨"Q2", demoHeader, [[("run_accession", "ERR123"), ("study_accession", "S3")]]⟩

/-- The demo input batch in sorted path order. -/
def demoFiles : List EnaMerge.EnaFile := [demoQ1, demoQ2]

/-- The result of `ena_merge.py` on the demo batch. -/
def demoOut : EnaMerge.MState × List EnaMerge.QueryStats :=
  (⟨["ERR123"], [("ERR123", ["Q1", "Q2"])],
    [("Q1", [("run_accession", "ERR123"), ("study_accession", "S1")])]⟩,
   [⟨"Q1", 2, 1, 1⟩, ⟨"Q2", 1, 0, 1⟩])

/-- Demo archive-A input of the cross-archive merge. -/
def C1demoEna : List Row := [[("run_accession", "R2")]]

/-- Demo archive-B input of the cross-archive merge. -/
def C1demoSra : List Row := [[("Run", "R1")], [("Run", "R2")]]

/-- Demo input of the run-level merge: one file repeating run `A`. -/
def sbDemo : List SraMergeBioproject.SbFile :=
  [⟨["Run"], [[("Run", "A")], [("Run", "A")]]⟩]

/-- The final state of the run-level merge on `sbDemo`. -/
def sbDemoAcc : SraMergeBioproject.Acc :=
  ⟨["A"], [["A"]], 1, 2, 0⟩

theorem C1_witness :
    (EnaMerge.main "run_accession" demoFiles = .ok demoOut
     ∧ demoOut.1.merged.countP
         (fun qr => EnaMerge.tkey "run_accession" qr == "ERR123") ≤ 1
     ∧ (EnaMerge.taggedRows demoFiles).find?
         (fun x => EnaMerge.tkey "run_accession" x
           == EnaMerge.tkey "run_accession"
                ("Q1", [("run_accession", "ERR123"), ("study_accession", "S1")]))
         = some ("Q1", [("run_accession", "ERR123"), ("study_accession", "S1")]))
    ∧ (MergeSraEna.merge_files C1demoEna C1demoSra true).out.countP
        (fun r => rget r "run_accession" == "R2") ≤ 1
    ∧ (SraMergeBioproject.main sbDemo = .ok (["Run"], sbDemoAcc)
       ∧ ∃ kept : List Row,
           sbDemoAcc.out = kept.map (SraMergeBioproject.projRow ["Run"])
           ∧ (∀ k : String,
               kept.countP (fun r => SraMergeBioproject.runKey r == k) ≤ 1)
           ∧ ∀ r ∈ kept, (SraMergeBioproject.allRows sbDemo).find?
               (fun x => SraMergeBioproject.runKey x
                 == SraMergeBioproject.runKey r) = some r) := by
  refine ⟨⟨rfl, ?_, ?_⟩, ?_, rfl, ?_⟩
  · exact (C1_dedup_merges_first_wins.1 "run_accession" demoFiles demoOut rfl).1
      "ERR123"
  · exact (C1_dedup_merges_first_wins.1 "run_accession" demoFiles demoOut rfl).2
      ("Q1", [("run_accession", "ERR123"), ("study_accession", "S1")]) (by decide)
  · exact (C1_dedup_merges_first_wins.2.1 C1demoEna C1demoSra).1 "R2"
  · exact C1_dedup_merges_first_wins.2.2 sbDemo ["Run"] sbDemoAcc rfl

/-- A row that passes every `ena_slim.py` criterion, with a fractional read
count exercising the decimal parser. -/
def C2keepRow : Row :=
  [("study_accession", "S1"), ("run_accession", "ERR9"),
   ("read_count", "150000.5"), ("library_strategy", "WGS"),
   ("library_selection", "RANDOM"), ("library_source", "METAGENOMIC"),
   ("library_layout", "PAIRED"), ("instrument_platform", "ILLUMINA"),
   ("instrument_model", "X"), ("scientific_name", "Homo sapiens"),
   ("tax_id", "9606")]

/-- A row whose strategy is the deny-listed composite `AMPLICON-WGS`. -/
def C2ampRow : Row :=
  [("study_accession", "S1"), ("run_accession", "ERR8"),
   ("read_count", "200000"), ("library_strategy", "AMPLICON-WGS"),
   ("library_selection", "RANDOM"), ("library_source", "METAGENOMIC"),
   ("scientific_name", "Homo sapiens")]

theorem C2_witness :
    EnaSlim.isKeep (EnaSlim.classify C2keepRow) = true
    ∧ rget C2ampRow "library_strategy" = "AMPLICON-WGS"
    ∧ EnaSlim.isKeep (EnaSlim.classify C2ampRow) = false
    ∧ (EnaSlim.run [C2keepRow, C2ampRow]).1 = [EnaSlim.outRow C2keepRow] := by
  refine ⟨(C2_ena_slim_filter.2.1 C2keepRow).mpr (by decide), rfl,
    C2_ena_slim_filter.2.2 C2ampRow rfl, ?_⟩
  rw [C2_ena_slim_filter.1 [C2keepRow, C2ampRow]]
  rfl

/-- Archive-B witness input for the amended C4: two distinct runs. -/
def C4wSra : List Row := [[("Run", "A")], [("Run", "B")]]

/-- Archive-A witness input disjoint from `C4wSra`. -/
def C4wEna : List Row := [[("run_accession", "C")]]

/-- Archive-A witness input sharing exactly run `B` with `C4wSra`. -/
def C4wEna2 : List Row := [[("run_accession", "B")]]

theorem C4_witness :
    ((MergeSraEna.merge_files C4wEna C4wSra true).written
        = C4wSra.length + C4wEna.length
     ∧ (MergeSraEna.merge_files C4wEna C4wSra true).dropped = 0)
    ∧ ((MergeSraEna.merge_files C4wEna2 C4wSra true).written
        = C4wSra.length + C4wEna2.length - 1
     ∧ (MergeSraEna.merge_files C4wEna2 C4wSra true).dropped = 1) := by
  constructor
  · exact (C4_merge_counts C4wEna C4wSra (by decide) (by decide) (by decide)
      (by decide)).1 (by decide)
  · exact (C4_merge_counts C4wEna2 C4wSra (by decide) (by decide) (by decide)
      (by decide)).2 "B" (by decide)

theorem C5_witness :
    EnaMerge.main "run_accession" demoFiles = .ok demoOut
    ∧ ((dedupRunsRows demoOut.1.kq).map Prod.fst).Nodup
    ∧ "ERR123" ∈ (dedupRunsRows demoOut.1.kq).map Prod.fst
    ∧ dedupRunsRows demoOut.1.kq = [("ERR123", "Q1,Q2")] := by
  refine ⟨rfl,
    (C5_key_index_superset "run_accession" demoFiles demoOut rfl).2.1, ?_, by rfl⟩
  exact ((C5_key_index_superset "run_accession" demoFiles demoOut rfl).2.2.1
    "ERR123").mpr (by decide)

theorem C6_witness :
    EnaMerge.main "run_accession" demoFiles = .ok demoOut
    ∧ demoOut.2.map (fun s => (s.query_id, s.input_rows)) = [("Q1", 2), ("Q2", 1)]
    ∧ EnaMerge.tkey "run_accession"
        ("Q1", [("run_accession", ""), ("study_accession", "S2")]) = ""
    ∧ ("Q1", [("run_accession", ""), ("study_accession", "S2")])
        ∉ demoOut.1.merged := by
  refine ⟨rfl, ?_, by decide, ?_⟩
  · exact (C6_empty_key_rows "run_accession" demoFiles demoOut rfl).2.2.trans
      (by rfl)
  · intro hmem
    exact (C6_empty_key_rows "run_accession" demoFiles demoOut rfl).1 _ hmem
      (by decide)

/-- The result of the barebones merge on the demo batch with the default
`study_accession` dedup key. -/
def ebDemoOut : EnaMergeBarebones.BState × List EnaMergeBarebones.QueryStats :=
  (⟨[("S1", ["Q1"]), ("S2", ["Q1"]), ("S3", ["Q2"])],
    [("Q1", [("run_accession", "ERR123"), ("study_accession", "S1")]),
     ("Q1", [("run_accession", ""), ("study_accession", "S2")]),
     ("Q2", [("run_accession", "ERR123"), ("study_accession", "S3")])]⟩,
   [⟨"Q1", 2, 2⟩, ⟨"Q2", 1, 1⟩])

theorem C7_witness :
    EnaMerge.main "run_accession" demoFiles = .ok demoOut
    ∧ (demoOut.2.map EnaMerge.QueryStats.written_rows).sum
        = demoOut.1.merged.length
    ∧ EnaMergeBarebones.main "study_accession" demoFiles = .ok ebDemoOut
    ∧ (ebDemoOut.2.map EnaMergeBarebones.QueryStats.run_lines).sum
        = ebDemoOut.1.merged.length := by
  exact ⟨rfl, C7_summary_totals.1 "run_accession" demoFiles demoOut rfl, rfl,
    C7_summary_totals.2 "study_accession" demoFiles ebDemoOut rfl⟩

/-- One representation order of the demo key-to-queries index. -/
def C8kq : List (String × List String) := [("K1", ["Q2", "Q1"]), ("K0", ["Q3"])]

/-- The same index in a different container iteration order. -/
def C8kq2 : List (String × List String) := [("K0", ["Q3"]), ("K1", ["Q1", "Q2"])]

theorem C8_witness :
    dedupRunsRows C8kq = dedupRunsRows C8kq2
    ∧ joinComma (sortStrs ["b", "a"]) = joinComma (sortStrs ["a", "b"]) := by
  refine ⟨C8_deterministic_outputs.1 C8kq C8kq2 (by decide) ?_,
    C8_deterministic_outputs.2 ["b", "a"] ["a", "b"] (by decide)⟩
  intro k
  by_cases h1 : k = "K1"
  · subst h1
    decide
  · by_cases h0 : k = "K0"
    · subst h0
      decide
    · have e1 : valueAt C8kq k = [] := by
        rw [C8kq, valueAt_cons, if_neg h1, valueAt_cons, if_neg h0]
        rfl
      have e2 : valueAt C8kq2 k = [] := by
        rw [C8kq2, valueAt_cons, if_neg h0, valueAt_cons, if_neg h1]
        rfl
      rw [e1, e2]

/-- An ena row with identifiers present and a blank read count. -/
def C9wRow : Row :=
  [("study_accession", "S"), ("run_accession", "R"), ("read_count", "")]

/-- A runinfo row with identifiers present and an unparseable spots value. -/
def C9wRowS : Row :=
  [("Run", "R"), ("BioProject", "P"), ("spots", "oops")]

theorem C9_witness :
    parse_int "abc" = 0
    ∧ EnaSlim.classify C9wRow = EnaSlim.RowFate.lowReads
    ∧ SraSlim.classify C9wRowS = SraSlim.RowFate.lowSpots
    ∧ (SraSlim.run [C9wRowS]).2.skipped_low_spots = 1
    ∧ parse_int "99999.9" = 99999 := by
  refine ⟨C9_parse_zero_rejection.1 "abc" (by rfl),
    C9_parse_zero_rejection.2.2.1 C9wRow (by decide) (by decide) (by decide),
    C9_parse_zero_rejection.2.2.2.1 C9wRowS (by decide) (by decide) (by decide),
    ?_, ?_⟩
  · rw [C9_parse_zero_rejection.2.2.2.2.2.1 [C9wRowS]]
    decide
  · have h7 := C9_parse_zero_rejection.2.2.2.2.2.2 "99999.9"
      ⟨false, 999999, 1, 0⟩ (by rfl)
    rw [h7.1]
    decide

theorem C10_witness :
    pyUpper (pyStrip " mate-pair ") ≠ "PAIRED"
    ∧ rget (SraSlim.outRow [("LibraryLayout", " mate-pair ")]) "SeqType"
        = "single"
    ∧ MergeSraEna.infer_seq_type_from_layout " mate-pair " = ""
    ∧ rget (SraSlim.outRow ([] : Row)) "SeqType" = "single"
    ∧ MergeSraEna.infer_seq_type_from_layout "" = ""
    ∧ rget (SraSlim.outRow [("LibraryLayout", "PAIRED")]) "SeqType"
        = "paired" := by
  refine ⟨by decide,
    C10_layout_disagreement.1 [("LibraryLayout", " mate-pair ")] (by decide),
    C10_layout_disagreement.2.2.1 " mate-pair " (by decide) (by decide),
    C10_layout_disagreement.1 ([] : Row) (by decide),
    C10_layout_disagreement.2.2.1 "" (by decide) (by decide),
    C10_layout_disagreement.2.1 [("LibraryLayout", "PAIRED")] (by decide)⟩
